import Mathlib

/-!
Verification development for the SuperAgent legislation-RAG pipeline
(`Legislacao.py`, `BuscaFaiss.py`, `LLM.py`).

The three scripts are shallowly embedded below.  Conventions used throughout:

* JSON-like values are the mutual inductive `JValue`/`JList`/`JFields`
  (dictionaries keep their key order, as Python `dict` and `json.loads` do).
  Numeric JSON payloads are restricted to integers; no claim depends on
  non-integer numbers.
* Embedding vectors are modelled over `ℚ` instead of IEEE floats: the claims
  about the index and the retriever concern counts, alignment and ordering,
  none of which depend on rounding.
* Third-party calls are modelled from their documented behaviour:
  `json.loads` as the executable parser `json_loads`, the FAISS flat L2 index
  as `FaissIndex`/`faissSearch`, the sentence-embedding model as an oracle
  `enc : String → List ℚ`, and each Gemini call as an oracle
  `Option String` response (`none` models a raised API error).
* File writes go to an association-list `Store`; the serialized content of a
  file is kept structurally (serialization itself is delegated to `json` /
  `faiss` in the source).
* Python exceptions that the source catches turn into `Option`/`none`;
  exceptions the source does not catch turn into `Except.error`.
* The HTTP request `fazer_requisicao_fazenda_sp` is pure I/O against an
  external portal and is represented only by its response body, a `String`
  parameter.
-/

set_option linter.unusedVariables false

namespace SuperAgent

/-!
JSON-like values as produced by `json.loads`: `null`, booleans, (integer)
numbers, strings, arrays and objects.  Objects are ordered key/value lists,
mirroring the insertion order that Python dictionaries preserve.
-/
mutual
inductive JValue where
  | null : JValue
  | bool (b : Bool) : JValue
  | num (n : Int) : JValue
  | str (s : String) : JValue
  | arr (elems : JList) : JValue
  | obj (fields : JFields) : JValue
deriving DecidableEq, Repr

inductive JList where
  | nil : JList
  | cons (hd : JValue) (tl : JList) : JList
deriving DecidableEq, Repr

inductive JFields where
  | nil : JFields
  | cons (key : String) (val : JValue) (tl : JFields) : JFields
deriving DecidableEq, Repr
end

instance {ε α : Type} [DecidableEq ε] [DecidableEq α] : DecidableEq (Except ε α) := fun a b =>
  match a, b with
  | .error x, .error y =>
      if h : x = y then .isTrue (by rw [h]) else .isFalse (fun c => by cases c; exact h rfl)
  | .ok x, .ok y =>
      if h : x = y then .isTrue (by rw [h]) else .isFalse (fun c => by cases c; exact h rfl)
  | .error _, .ok _ => .isFalse (fun c => by cases c)
  | .ok _, .error _ => .isFalse (fun c => by cases c)

def JList.isEmpty : JList → Bool
  | .nil => true
  | .cons _ _ => false

def JFields.isEmpty : JFields → Bool
  | .nil => true
  | .cons _ _ _ => false

/-- Conversion helper: build a `JList` from a Lean list (used only to write
concrete test structures compactly). -/
def JList.ofList : List JValue → JList
  | [] => .nil
  | x :: rest => .cons x (JList.ofList rest)

/-- Conversion helper for objects. -/
def JFields.ofList : List (String × JValue) → JFields
  | [] => .nil
  | (k, v) :: rest => .cons k v (JFields.ofList rest)

/-- Python truthiness (`bool(x)`) on JSON values: `None`, `False`, `0`, `""`,
`[]` and `{}` are falsy, everything else truthy. -/
def pyTruthy : JValue → Bool
  | .null => false
  | .bool b => b
  | .num n => n != 0
  | .str s => s != ""
  | .arr l => !l.isEmpty
  | .obj l => !l.isEmpty

/-- Python `dict.get`: first binding of the key, if any (Python dictionaries
have unique keys, so first-match lookup agrees with `dict` lookup). -/
def lookupField : JFields → String → Option JValue
  | .nil, _ => none
  | .cons k v rest, key => if k = key then some v else lookupField rest key

/-!
Python `str(x)` for JSON values (`f"{x}"` interpolation).  Containers fall
back to `repr`-style rendering of their elements, as Python does.
-/
mutual
def pyStr : JValue → String
  | .null => "None"
  | .bool b => if b then "True" else "False"
  | .num n => toString n
  | .str s => s
  | .arr l => "[" ++ pyReprList l ++ "]"
  | .obj l => "\x7b" ++ pyReprFields l ++ "\x7d"

def pyRepr : JValue → String
  | .null => "None"
  | .bool b => if b then "True" else "False"
  | .num n => toString n
  | .str s => "'" ++ s ++ "'"
  | .arr l => "[" ++ pyReprList l ++ "]"
  | .obj l => "\x7b" ++ pyReprFields l ++ "\x7d"

def pyReprList : JList → String
  | .nil => ""
  | .cons x .nil => pyRepr x
  | .cons x rest => pyRepr x ++ ", " ++ pyReprList rest
termination_by structural l => l

def pyReprFields : JFields → String
  | .nil => ""
  | .cons k v .nil => "'" ++ k ++ "': " ++ pyRepr v
  | .cons k v rest => "'" ++ k ++ "': " ++ pyRepr v ++ ", " ++ pyReprFields rest
termination_by structural l => l
end

/-- ASCII whitespace as stripped by Python `str.strip()` (the scripts only
ever strip ASCII payloads). -/
def pyIsSpace (c : Char) : Bool :=
  c = ' ' || c = '\t' || c = '\n' || c = '\r' || c = '\x0b' || c = '\x0c'

def dropSpaces : List Char → List Char
  | [] => []
  | c :: rest => if pyIsSpace c then dropSpaces rest else c :: rest

/-- Python `str.strip()`. -/
def pyStrip (s : String) : String :=
  String.mk ((dropSpaces ((dropSpaces s.toList).reverse)).reverse)

/-! ### A model of `json.loads`

Executable recursive-descent parser for the JSON fragment the scripts
exchange: `null`, `true`, `false`, integers (no leading zeros, no fractions
or exponents), double-quoted strings with the single-character escapes, and
arrays/objects.  `json.loads` also demands that nothing but whitespace follow
the value, which the wrapper `json_loads` enforces. -/

def parseStringBody : List Char → List Char → Option (String × List Char)
  | acc, [] => none
  | acc, c :: rest =>
    if c = '"' then some (String.mk acc.reverse, rest)
    else if c = '\\' then
      match rest with
      | [] => none
      | e :: rest2 =>
        let esc : Option Char :=
          if e = '"' then some '"'
          else if e = '\\' then some '\\'
          else if e = '/' then some '/'
          else if e = 'n' then some '\n'
          else if e = 't' then some '\t'
          else if e = 'r' then some '\r'
          else if e = 'b' then some '\x08'
          else if e = 'f' then some '\x0c'
          else none
        match esc with
        | some d => parseStringBody (d :: acc) rest2
        | none => none
    else parseStringBody (c :: acc) rest
termination_by structural _ cs => cs

def spanDigits : List Char → List Char × List Char
  | [] => ([], [])
  | c :: rest =>
    if c.isDigit then
      let (ds, r) := spanDigits rest
      (c :: ds, r)
    else ([], c :: rest)

def natOfDigits (ds : List Char) : Nat :=
  ds.foldl (fun acc c => acc * 10 + (c.toNat - '0'.toNat)) 0

def parseIntLit (cs : List Char) : Option (JValue × List Char) :=
  let (neg, cs1) := match cs with
    | '-' :: r => (true, r)
    | _ => (false, cs)
  let (ds, rest) := spanDigits cs1
  if ds.isEmpty then none
  else if ds.length > 1 && ds.headD '0' = '0' then none
  else
    match rest with
    | '.' :: _ => none
    | 'e' :: _ => none
    | 'E' :: _ => none
    | _ =>
      let n : Int := natOfDigits ds
      some (.num (if neg then -n else n), rest)

def expectLit : List Char → List Char → Option (List Char)
  | [], rest => some rest
  | e :: es, c :: rest => if c = e then expectLit es rest else none
  | _ :: _, [] => none

mutual
def parseValue : Nat → List Char → Option (JValue × List Char)
  | 0, _ => none
  | fuel + 1, cs =>
    match dropSpaces cs with
    | [] => none
    | c :: rest =>
      if c = '"' then
        match parseStringBody [] rest with
        | some (s, r) => some (.str s, r)
        | none => none
      else if c = '[' then
        match dropSpaces rest with
        | ']' :: r2 => some (.arr .nil, r2)
        | other =>
          match parseArrElems fuel other with
          | some (l, r2) => some (.arr l, r2)
          | none => none
      else if c = '\x7b' then
        match dropSpaces rest with
        | '\x7d' :: r2 => some (.obj .nil, r2)
        | other =>
          match parseObjMembers fuel other with
          | some (l, r2) => some (.obj l, r2)
          | none => none
      else if c = 't' then (expectLit ['r', 'u', 'e'] rest).map (fun r => (.bool true, r))
      else if c = 'f' then (expectLit ['a', 'l', 's', 'e'] rest).map (fun r => (.bool false, r))
      else if c = 'n' then (expectLit ['u', 'l', 'l'] rest).map (fun r => (.null, r))
      else parseIntLit (c :: rest)
termination_by structural fuel => fuel

def parseArrElems : Nat → List Char → Option (JList × List Char)
  | 0, _ => none
  | fuel + 1, cs =>
    match parseValue fuel cs with
    | none => none
    | some (v, rest) =>
      match dropSpaces rest with
      | ',' :: r2 =>
        match parseArrElems fuel (dropSpaces r2) with
        | some (tl, r3) => some (.cons v tl, r3)
        | none => none
      | ']' :: r2 => some (.cons v .nil, r2)
      | _ => none
termination_by structural fuel => fuel

def parseObjMembers : Nat → List Char → Option (JFields × List Char)
  | 0, _ => none
  | fuel + 1, cs =>
    match dropSpaces cs with
    | '"' :: r1 =>
      match parseStringBody [] r1 with
      | none => none
      | some (key, r2) =>
        match dropSpaces r2 with
        | ':' :: r3 =>
          match parseValue fuel r3 with
          | none => none
          | some (v, r4) =>
            match dropSpaces r4 with
            | ',' :: r5 =>
              match parseObjMembers fuel r5 with
              | some (tl, r6) => some (.cons key v tl, r6)
              | none => none
            | '\x7d' :: r5 => some (.cons key v .nil, r5)
            | _ => none
        | _ => none
    | _ => none
termination_by structural fuel => fuel
end

/-- Model of `json.loads`: parse one JSON value and demand that only
whitespace remain.  `none` models a raised `JSONDecodeError`. -/
def json_loads (s : String) : Option JValue :=
  let cs := s.toList
  match parseValue (cs.length + 1) cs with
  | some (v, rest) => if (dropSpaces rest).isEmpty then some v else none
  | none => none

/-! ## Legislacao.py -/

/-- Python `str.find`: index of the first occurrence, as an `Option`. -/
def findIdx : List Char → Char → Option Nat
  | [], _ => none
  | c :: rest, t => if c = t then some 0 else (findIdx rest t).map (· + 1)

/-- Python `str.find` (first occurrence, `-1` when absent). -/
def pyFind (cs : List Char) (t : Char) : Int :=
  match findIdx cs t with
  | some i => i
  | none => -1

/-- Python `str.rfind` (last occurrence, `-1` when absent). -/
def pyRFind (cs : List Char) (t : Char) : Int :=
  match findIdx cs.reverse t with
  | some i => (cs.length : Int) - 1 - i
  | none => -1

/-- Model of `desserializar_json_resistente` (`Legislacao.py`): find the first
`[` and the last `]`; when both exist, slice `texto_json[start:end+1]` and
parse that, otherwise parse the whole body.  A parse error is caught, reported
and turned into `None`. -/
def desserializar_json_resistente (texto_json : String) : Option JValue :=
  let cs := texto_json.toList
  let start := pyFind cs '['
  let stop := pyRFind cs ']'
  let fatiado : String :=
    if start != -1 && stop != -1 then
      String.mk ((cs.drop start.toNat).take (stop.toNat + 1 - start.toNat))
    else texto_json
  json_loads fatiado

/-- One extracted result row (`Legislacao.py`): sequential id, the raw `Path`
value, and the concatenated `PATH: ...\nCONTEÚDO: ...` text body. -/
structure Row where
  id : Nat
  path : JValue
  conteudo : String
deriving DecidableEq, Repr

/-- Inner loop of `buscar_result_rows` over a matched `ResultRows` array:
keep the rows whose `Path` and `PublishingPageContentOWSHTML` are present and
truthy, assigning `len(resultados_extraidos)` as the id at append time.
`row.get` on a non-dictionary raises `AttributeError` (uncaught), modelled by
`Except.error`. -/
def pegarRows : JList → List Row → Except Unit (List Row)
  | .nil, acc => .ok acc
  | .cons row rest, acc =>
    match row with
    | .obj fields =>
      match lookupField fields "Path", lookupField fields "PublishingPageContentOWSHTML" with
      | some p, some c =>
        if pyTruthy p && pyTruthy c then
          pegarRows rest
            (acc ++ [⟨acc.length, p, "PATH: " ++ pyStr p ++ "\nCONTEÚDO: " ++ pyStr c⟩])
        else pegarRows rest acc
      | some _, none => pegarRows rest acc
      | none, some _ => pegarRows rest acc
      | none, none => pegarRows rest acc
    | .null => .error ()
    | .bool _ => .error ()
    | .num _ => .error ()
    | .str _ => .error ()
    | .arr _ => .error ()

/-!
The recursive traversal `buscar_result_rows`: on a dictionary, iterate the
fields in order; a field `ResultRows` holding a list is consumed by
`pegarRows` and the Python `return` then abandons the remaining fields of
that same dictionary; any other value is recursed into.  Lists are traversed
element by element; scalars are ignored.
-/
/-- Test of `isinstance(valor, list)` on a JSON value. -/
def ehLista : JValue → Bool
  | .arr _ => true
  | _ => false

/-- Elements of a JSON array (only ever used under `ehLista`). -/
def elemsDe : JValue → JList
  | .arr l => l
  | _ => .nil

mutual
def buscar : JValue → List Row → Except Unit (List Row)
  | .obj fields, acc => buscarFields fields acc
  | .arr elems, acc => buscarList elems acc
  | .null, acc => .ok acc
  | .bool _, acc => .ok acc
  | .num _, acc => .ok acc
  | .str _, acc => .ok acc
termination_by structural v => v

def buscarFields : JFields → List Row → Except Unit (List Row)
  | .nil, acc => .ok acc
  | .cons k v rest, acc =>
    if k = "ResultRows" && ehLista v then
      pegarRows (elemsDe v) acc
    else
      match buscar v acc with
      | .error e => .error e
      | .ok acc2 => buscarFields rest acc2
termination_by structural f => f

def buscarList : JList → List Row → Except Unit (List Row)
  | .nil, acc => .ok acc
  | .cons x rest, acc =>
    match buscar x acc with
    | .error e => .error e
    | .ok acc2 => buscarList rest acc2
termination_by structural l => l
end

/-- Model of `extrair_resultados_recursivamente` (`Legislacao.py`). -/
def extrair_resultados_recursivamente (dados : JValue) : Except Unit (List Row) :=
  buscar dados []

/-- One metadata entry as persisted by `processar_para_faiss` /
`construir_e_salvar_indice_faiss` (`id`, `path`, `conteudo`) and as later
mutated by `buscar_faiss`, which adds the keys `rank` and `distancia_l2`
(absent keys are modelled as `none`). -/
structure Meta where
  id : Nat
  path : JValue
  conteudo : String
  rank : Option Nat
  distancia_l2 : Option ℚ
deriving DecidableEq, Repr

/-- Model of `processar_para_faiss` (`Legislacao.py`): embed every
`conteudo` in one batch through the embedding oracle `enc` and copy
`id`/`path`/`conteudo` into fresh metadata entries. -/
def processar_para_faiss (enc : String → List ℚ) (resultados : List Row) :
    List (List ℚ) × List Meta :=
  (resultados.map (fun item => enc item.conteudo),
   resultados.map (fun item => ⟨item.id, item.path, item.conteudo, none, none⟩))

/-- The FAISS `IndexFlatL2`: a dimension and the stored vectors in insertion
order (position = FAISS id). -/
structure FaissIndex where
  d : Nat
  xb : List (List ℚ)
deriving DecidableEq, Repr

/-- Content of one persisted file. -/
inductive FileVal where
  | indexFile (idx : FaissIndex)
  | metaFile (metadados : List Meta)
deriving DecidableEq, Repr

/-- The durable file store: written files by name. -/
abbrev Store := List (String × FileVal)

/-- Console events the claims talk about. -/
inductive LogEvent where
  | erroDesserializacao
  | avisoNenhumaLinha
  | avisoSemVetores
deriving DecidableEq, Repr

/-- `numpy` `.size` of the stacked embedding matrix: total number of scalar
entries. -/
def numpySize (vetores : List (List ℚ)) : Nat :=
  (vetores.map List.length).sum

/-- Model of `construir_e_salvar_indice_faiss` (`Legislacao.py`): when the
vector matrix is empty, warn and write nothing; otherwise build the flat L2
index over all vectors and write `<base>.faiss` plus
`<base>_metadados.json`. -/
def construir_e_salvar_indice_faiss (dados_processados : List (List ℚ) × List Meta)
    (nome_base_arquivo : String) : Store × List LogEvent :=
  let vetores := dados_processados.1
  let metadados := dados_processados.2
  if numpySize vetores = 0 then ([], [.avisoSemVetores])
  else
    let dimensao := (vetores.headD []).length
    let index : FaissIndex := ⟨dimensao, vetores⟩
    ([(nome_base_arquivo ++ ".faiss", .indexFile index),
      (nome_base_arquivo ++ "_metadados.json", .metaFile metadados)],
     [])

/-- Outcome of one `Legislacao.py` run: the files written and the reported
events. -/
structure LegisResult where
  files : Store
  logs : List LogEvent
deriving DecidableEq, Repr

/-- Model of the `__main__` block of `Legislacao.py`, from the point where a
portal response body has been received: deserialize (failure is reported and
leaves nothing written), extract rows (an uncaught exception aborts the
process, `Except.error`), and either build and save the index or warn that no
row was found. -/
def legislacaoMain (enc : String → List ℚ) (termo : String) (respostaText : String) :
    Except Unit LegisResult :=
  match desserializar_json_resistente respostaText with
  | none => .ok ⟨[], [.erroDesserializacao]⟩
  | some dados_json =>
    if pyTruthy dados_json then
      match extrair_resultados_recursivamente dados_json with
      | .error e => .error e
      | .ok resultados_base =>
        if resultados_base.isEmpty then .ok ⟨[], [.avisoNenhumaLinha]⟩
        else
          let dados_faiss := processar_para_faiss enc resultados_base
          let saved := construir_e_salvar_indice_faiss dados_faiss ("faiss_index_" ++ termo)
          .ok ⟨saved.1, saved.2⟩
    else .ok ⟨[], []⟩

/-! ## BuscaFaiss.py -/

/-- Lookup of a file in the store. -/
def lookupStore : Store → String → Option FileVal
  | [], _ => none
  | (nome, conteudo) :: rest, alvo =>
    if nome = alvo then some conteudo else lookupStore rest alvo

/-- Model of `carregar_indice_e_metadados` (`BuscaFaiss.py`): read
`faiss_index_<termo>.faiss` and `faiss_index_<termo>_metadados.json`; `none`
models the caught `FileNotFoundError`. -/
def carregar_indice_e_metadados (store : Store) (nome_base_arquivo : String) :
    Option (FaissIndex × List Meta) :=
  let nome_indice := "faiss_index_" ++ nome_base_arquivo ++ ".faiss"
  let nome_metadados := "faiss_index_" ++ nome_base_arquivo ++ "_metadados.json"
  match lookupStore store nome_indice, lookupStore store nome_metadados with
  | some (.indexFile index), some (.metaFile metadados) => some (index, metadados)
  | _, _ => none

/-- Squared Euclidean distance, the metric of `IndexFlatL2`. -/
def sqL2 (q v : List ℚ) : ℚ :=
  ((q.zip v).map (fun p => (p.1 - p.2) ^ 2)).sum

/-- Comparison of (distance, id) result slots by distance. -/
def distRel (a b : ℚ × Int) : Prop := a.1 ≤ b.1

instance : DecidableRel distRel := fun a b => inferInstanceAs (Decidable (a.1 ≤ b.1))

instance : IsTotal (ℚ × Int) distRel := ⟨fun a b => le_total a.1 b.1⟩

instance : IsTrans (ℚ × Int) distRel := ⟨fun _ _ _ => le_trans⟩

/-- Exhaustive scoring pass of the flat index: (distance, id) for every
stored vector. -/
def distsDe (index : FaissIndex) (q : List ℚ) : List (ℚ × Int) :=
  (List.range index.xb.length).map
    (fun i => (sqL2 q (index.xb.getD i []), (i : Int)))

/-- All scored slots in ascending-distance order. -/
def ordenadoDe (index : FaissIndex) (q : List ℚ) : List (ℚ × Int) :=
  List.insertionSort distRel (distsDe index q)

/-- Model of `index.search(query, k)` for a flat L2 index, from the FAISS
documentation: exhaustively score every stored vector, return the `k` best
(distance, id) slots in ascending-distance order, and pad with the sentinel
id `-1` when the index holds fewer than `k` vectors. -/
def faissSearch (index : FaissIndex) (q : List ℚ) (k : Nat) : List (ℚ × Int) :=
  (ordenadoDe index q).take k ++ List.replicate (k - index.xb.length) (0, -1)

/-- Python list indexing `lst[i]` (negative indices count from the end; out of
range raises `IndexError`): resolved non-negative position. -/
def pyListIdx (len : Nat) (i : Int) : Option Nat :=
  if 0 ≤ i then (if i.toNat < len then some i.toNat else none)
  else (if (-i).toNat ≤ len then some (len - (-i).toNat) else none)

/-- The result loop of `buscar_faiss`: for each slot `i`, skip sentinel id
`-1`; otherwise fetch `metadados[id]`, set its keys `rank := i+1` and
`distancia_l2`, mutating the entry inside the metadata list in place, and
remember the position of the mutated entry (the appended dict is that very
object).  Returns the final metadata list and the hit positions in order;
`none` models an uncaught `IndexError`. -/
def buscaLoop : List (ℚ × Int) → Nat → List Meta → Option (List Meta × List Nat)
  | [], _, metadados => some (metadados, [])
  | (dist, id) :: rest, i, metadados =>
    if id = -1 then buscaLoop rest (i + 1) metadados
    else
      match pyListIdx metadados.length id with
      | none => none
      | some pos =>
        match metadados.get? pos with
        | none => none
        | some doc =>
          match buscaLoop rest (i + 1)
              (metadados.set pos ⟨doc.id, doc.path, doc.conteudo, some (i + 1), some dist⟩) with
          | none => none
          | some (mFin, posRest) => some (mFin, pos :: posRest)

/-- Placeholder entry for total list access (never reached on the proved
paths). -/
def defaultMeta : Meta := ⟨0, .null, "", none, none⟩

/-- Python `f"{x:.4f}"` on the model's rational distances: fixed four decimal
places, round to nearest. -/
def formatQ4 (q : ℚ) : String :=
  let scaled : Int := round (q * 10000)
  let sign := if scaled < 0 then "-" else ""
  let n := scaled.natAbs
  let fracStr := toString (n % 10000)
  let pad := String.mk (List.replicate (4 - fracStr.length) '0')
  sign ++ toString (n / 10000) ++ "." ++ pad ++ fracStr

/-- The output formatting loop of `buscar_faiss`: one section per result with
rank, source, distance and content. -/
def formatarSaida (resultados : List Meta) : String :=
  resultados.foldl
    (fun s res =>
      s ++ "--- DOCUMENTO RANK " ++ toString (res.rank.getD 0) ++ " ---\n"
        ++ "URL/Fonte: " ++ pyStr res.path ++ "\n"
        ++ "Distância (Similaridade): " ++ formatQ4 (res.distancia_l2.getD 0) ++ "\n"
        ++ "Conteúdo:\n" ++ res.conteudo ++ "\n\n")
    ""

/-- Model of `buscar_faiss` (`BuscaFaiss.py`): embed the query, search the
index for `k` neighbours, map ids back to (and mutate) the metadata entries,
and produce the formatted text block.  Returns the metadata list after the
query's in-place mutations, the `resultados_relevantes` list (each element
read off the mutated metadata list at its hit position, i.e. the aliased
entry), and the formatted string the script prints. -/
def buscar_faiss (enc : String → List ℚ) (query : String) (index : FaissIndex)
    (metadados : List Meta) (k : Nat) : Option (List Meta × List Meta × String) :=
  let query_embedding := enc query
  let hits := faissSearch index query_embedding k
  match buscaLoop hits 0 metadados with
  | none => none
  | some (mFin, posicoes) =>
    let resultados_relevantes := posicoes.map (fun p => mFin.getD p defaultMeta)
    some (mFin, resultados_relevantes, formatarSaida resultados_relevantes)

/-! ## LLM.py -/

/-- Python substring test `agulha in palheiro`. -/
def contemSub (agulha palheiro : String) : Bool :=
  decide (agulha.toList <:+: palheiro.toList)

/-- Reading of one field in `extrair_termos_gemini`:
`termos.get(chave, '').strip()`.  A missing key defaults to `''`; `.strip()`
on a non-string raises (caught by the surrounding `except`), modelled as
`none`. -/
def campoTermo (fields : JFields) (chave : String) : Option String :=
  match lookupField fields chave with
  | none => some ""
  | some (.str s) => some (pyStrip s)
  | some _ => none

/-- Core of `extrair_termos_gemini` (`LLM.py`) applied to the Gemini response
text: `json.loads` it, read `termo_curto` / `termo_completo` with `.strip()`,
and fail (`ValueError`, caught, so `(None, None)`) when either is empty.
`.get` on a non-dictionary payload raises, also caught. -/
def extrairTermosDeResposta (respostaText : String) : Option (String × String) :=
  match json_loads respostaText with
  | some (.obj fields) =>
    match campoTermo fields "termo_curto", campoTermo fields "termo_completo" with
    | some termo_curto, some termo_completo =>
      if termo_curto = "" || termo_completo = "" then none
      else some (termo_curto, termo_completo)
    | _, _ => none
  | some _ => none
  | none => none

/-- Model of `extrair_termos_gemini` (`LLM.py`): the Gemini call is an oracle
response; `none` models a raised API error, and every failure path returns
`(None, None)`, here `none`. -/
def extrair_termos_gemini (resposta : Option String) : Option (String × String) :=
  match resposta with
  | none => none
  | some texto => extrairTermosDeResposta texto

/-- The analysis prompt built in `analisar_resultados_gemini` (`LLM.py`).
The source builds it with an f-string that interpolates no variable at all,
so the text is the same whatever `conteudo_xml_bruto` and `resultados_busca`
are. -/
def prompt_analise (conteudo_xml_bruto resultados_busca : String) : String :=
  "\n        Abaixo estão o conteúdo BRUTO de uma Nota Fiscal Eletrônica (XML) e um trecho de leis relevantes encontrado (FAISS).\n        \n        Sua tarefa é gerar uma análise detalhada ESTRITAMENTE no formato MARKDOWN, usando títulos (#), subtítulos (##) e listas.\n        \n        1. **Resumo da NF-e:** Breve resumo da nota fiscal (o que ela trata).\n        2. **Relevância Legal:** Indique se o trecho de lei parece ser relevante ou aplicável à NF-e com link.\n        3. **Trecho de Lei Chave:** Cite o trecho da lei que você considerou mais importante ou aplicável.\n        4. **Oportunidade de Economia/Benefício:** O mais importante: Cite dicas para aplicação de lei para reduzir recolhimento ou obter algum benefício legal e mensurar o quanto economiza com esta ação. Mostrar se possível em R$.\n        \n        Gere a análise SOMENTE em formato Markdown, começando com um título de nível 1.\n        "

/-- The fallback document returned by `analisar_resultados_gemini` when the
Gemini call raises. -/
def fallbackErroAnalise : String :=
  "# Erro de Análise\nAnálise final não pôde ser concluída."

/-- Model of `analisar_resultados_gemini` (`LLM.py`): send `prompt_analise`
to Gemini (oracle response); on an exception return the fallback error
document. -/
def analisar_resultados_gemini (conteudo_xml_bruto resultados_busca : String)
    (resposta : Option String) : String :=
  match resposta with
  | some analise_markdown => analise_markdown
  | none => fallbackErroAnalise

/-- Pipeline stages of `main` (`LLM.py`), in invocation order. -/
inductive Stage where
  | leituraXml
  | extracaoTermos
  | corpusJuridico
  | buscaVetorial
  | analiseInsights
  | geracaoPdf
deriving DecidableEq, Repr

/-- Outcome of one `main` run of `LLM.py`: stages invoked in order, exit
code, the final analysis text (when reached) and whether PDF rendering was
invoked. -/
structure NFeResult where
  stages : List Stage
  exitCode : Nat
  analise : Option String
  pdfGerado : Bool
deriving DecidableEq, Repr

/-- Model of `main` (`LLM.py`).  Oracle parameters: `conteudoArquivo` is the
result of reading the input file (`none`: missing file), `respTermos` the
first Gemini response, `corpusOk` whether the `Legislacao.py` subprocess
exited 0, `resultadosBusca` the captured stdout of `BuscaFaiss.py` (`none`:
subprocess error with no stdout-based marker path taken), `respAnalise` the
second Gemini response.  Each failure check aborts with exit code 1 before
invoking any later stage; the final PDF step is skipped when the analysis is
empty or contains `"Erro de Análise"`. -/
def mainNFe (conteudoArquivo : Option String) (respTermos : Option String)
    (corpusOk : Bool) (resultadosBusca : Option String) (respAnalise : Option String) :
    NFeResult :=
  match conteudoArquivo with
  | none => ⟨[.leituraXml], 1, none, false⟩
  | some conteudo_xml_bruto =>
    if conteudo_xml_bruto = "" then ⟨[.leituraXml], 1, none, false⟩
    else
      match extrair_termos_gemini respTermos with
      | none => ⟨[.leituraXml, .extracaoTermos], 1, none, false⟩
      | some _ =>
        if !corpusOk then ⟨[.leituraXml, .extracaoTermos, .corpusJuridico], 1, none, false⟩
        else
          match resultadosBusca with
          | none => ⟨[.leituraXml, .extracaoTermos, .corpusJuridico, .buscaVetorial], 1,
              none, false⟩
          | some resultados_busca =>
            if contemSub "ERRO NA BUSCA FAISS" resultados_busca then
              ⟨[.leituraXml, .extracaoTermos, .corpusJuridico, .buscaVetorial], 1, none, false⟩
            else
              let analise := analisar_resultados_gemini conteudo_xml_bruto resultados_busca
                respAnalise
              if analise != "" && !contemSub "Erro de Análise" analise then
                ⟨[.leituraXml, .extracaoTermos, .corpusJuridico, .buscaVetorial,
                  .analiseInsights, .geracaoPdf], 0, some analise, true⟩
              else
                ⟨[.leituraXml, .extracaoTermos, .corpusJuridico, .buscaVetorial,
                  .analiseInsights], 0, some analise, false⟩

/-! ## Spec-side predicate and concrete structures used in the claim instances -/

/-- Validation predicate taken from the spec's words: well-formed structured
markup "starting with a top-level heading".  Stated over the model only to
compare the spec against what the code actually checks. -/
def comecaComTituloDeNivel1 (s : String) : Bool :=
  decide ("# ".toList <+: s.toList)

/-- A result row carrying both required fields. -/
def rowCom (p c : String) : JValue :=
  .obj (.cons "Path" (.str p) (.cons "PublishingPageContentOWSHTML" (.str c) .nil))

/-- Depth-3 nesting with one `ResultRows` array holding two valid rows and
one row missing `Path`.  The second valid row also carries its own nested
`ResultRows` array (under the key `Aninhado`), which a traversal that treats
a matched array as a leaf must ignore. -/
def estruturaProfunda : JValue :=
  .arr (.cons (.obj (.cons "a" (.obj (.cons "b" (.obj (.cons "ResultRows"
    (.arr (.cons (rowCom "p1" "c1")
      (.cons (.obj (.cons "Path" (.str "p2")
        (.cons "PublishingPageContentOWSHTML" (.str "c2")
          (.cons "Aninhado"
            (.obj (.cons "ResultRows" (.arr (.cons (rowCom "p9" "c9") .nil)) .nil))
            .nil))))
      (.cons (.obj (.cons "PublishingPageContentOWSHTML" (.str "c3") .nil)) .nil))))
    .nil)) .nil)) .nil)) .nil)

/-- A dictionary whose `ResultRows` key is followed (in insertion order) by a
sibling key `Depois` holding a second, fully valid `ResultRows` array that is
not inside the first one. -/
def estruturaIrmaDepois : JValue :=
  .arr (.cons (.obj (.cons "ResultRows" (.arr (.cons (rowCom "p1" "c1") .nil))
    (.cons "Depois"
      (.obj (.cons "ResultRows" (.arr (.cons (rowCom "p2" "c2") .nil)) .nil))
      .nil))) .nil)

/-- A Gemini term response whose `termo_curto` is whitespace only. -/
def respostaTermosVazia : String :=
  "\x7b\"termo_curto\": \"  \", \"termo_completo\": \"lei\"\x7d"

/-- A well-formed Gemini term response. -/
def respostaTermosValida : String :=
  "\x7b\"termo_curto\": \"acucar\", \"termo_completo\": \"lei do acucar\"\x7d"

/-- A constant two-dimensional embedding oracle for concrete instances. -/
def encDois : String → List ℚ :=
  fun _ => [1, 2]

/-- A constant one-dimensional zero embedding oracle. -/
def encZero : String → List ℚ :=
  fun _ => [0]

/-- A two-vector flat index of dimension 1. -/
def indexDois : FaissIndex :=
  ⟨1, [[5], [2]]⟩

/-- Metadata aligned with `indexDois`. -/
def metaDois : List Meta :=
  [⟨0, .str "pa", "ca", none, none⟩, ⟨1, .str "pb", "cb", none, none⟩]

/-! ## Helper lemmas: sequential ids of the extraction -/

mutual
def sizeV : JValue → Nat
  | .null => 1
  | .bool _ => 1
  | .num _ => 1
  | .str _ => 1
  | .arr l => sizeL l + 1
  | .obj f => sizeF f + 1
termination_by structural v => v

def sizeL : JList → Nat
  | .nil => 1
  | .cons x rest => sizeV x + sizeL rest + 1
termination_by structural l => l

def sizeF : JFields → Nat
  | .nil => 1
  | .cons _ v rest => sizeV v + sizeF rest + 1
termination_by structural f => f
end

/-- The accumulated rows carry ids `0, 1, ..., length-1` in order. -/
def idsOk (l : List Row) : Prop :=
  l.map Row.id = List.range l.length

theorem sizeV_pos (v : JValue) : 1 ≤ sizeV v := by
  cases v <;> simp [sizeV]

theorem sizeL_pos (l : JList) : 1 ≤ sizeL l := by
  cases l <;> simp [sizeL]

theorem sizeF_pos (f : JFields) : 1 ≤ sizeF f := by
  cases f <;> simp [sizeF]

theorem idsOk_nil : idsOk [] := rfl

theorem idsOk_append {l : List Row} (p : JValue) (s : String) (h : idsOk l) :
    idsOk (l ++ [⟨l.length, p, s⟩]) := by
  unfold idsOk at h ⊢
  simp [List.range_succ, h]

theorem pegarRows_ids :
    ∀ (n : Nat) (rows : JList) (acc res : List Row), sizeL rows ≤ n →
      idsOk acc → pegarRows rows acc = .ok res → idsOk res := by
  intro n
  induction n with
  | zero =>
    intro rows acc res hs
    exact absurd hs (by have := sizeL_pos rows; omega)
  | succ n ih =>
    intro rows acc res hs hacc heq
    cases rows with
    | nil =>
      rw [pegarRows] at heq
      cases heq
      exact hacc
    | cons row rest =>
      have hrest : sizeL rest ≤ n := by
        have := sizeV_pos row
        simp [sizeL] at hs
        omega
      cases row with
      | obj fields =>
        rw [pegarRows] at heq
        split at heq
        next p c =>
          split at heq
          · exact ih rest _ res hrest (idsOk_append _ _ hacc) heq
          · exact ih rest _ res hrest hacc heq
        next => exact ih rest _ res hrest hacc heq
        next => exact ih rest _ res hrest hacc heq
        next => exact ih rest _ res hrest hacc heq
      | null => rw [pegarRows] at heq; cases heq
      | bool b => rw [pegarRows] at heq; cases heq
      | num m => rw [pegarRows] at heq; cases heq
      | str s => rw [pegarRows] at heq; cases heq
      | arr l => rw [pegarRows] at heq; cases heq

theorem busca_ids :
    ∀ (n : Nat),
      (∀ (v : JValue) (acc res : List Row), sizeV v ≤ n →
        idsOk acc → buscar v acc = .ok res → idsOk res) ∧
      (∀ (f : JFields) (acc res : List Row), sizeF f ≤ n →
        idsOk acc → buscarFields f acc = .ok res → idsOk res) ∧
      (∀ (l : JList) (acc res : List Row), sizeL l ≤ n →
        idsOk acc → buscarList l acc = .ok res → idsOk res) := by
  intro n
  induction n with
  | zero =>
    refine ⟨fun v acc res hs => absurd hs (by have := sizeV_pos v; omega),
      fun f acc res hs => absurd hs (by have := sizeF_pos f; omega),
      fun l acc res hs => absurd hs (by have := sizeL_pos l; omega)⟩
  | succ n ih =>
    obtain ⟨ihV, ihF, ihL⟩ := ih
    refine ⟨?_, ?_, ?_⟩
    · intro v acc res hs hacc heq
      cases v with
      | obj fields =>
        rw [buscar] at heq
        exact ihF fields acc res (by simp [sizeV] at hs; omega) hacc heq
      | arr elems =>
        rw [buscar] at heq
        exact ihL elems acc res (by simp [sizeV] at hs; omega) hacc heq
      | null => rw [buscar] at heq; cases heq; exact hacc
      | bool b => rw [buscar] at heq; cases heq; exact hacc
      | num m => rw [buscar] at heq; cases heq; exact hacc
      | str s => rw [buscar] at heq; cases heq; exact hacc
    · intro f acc res hs hacc heq
      cases f with
      | nil => rw [buscarFields] at heq; cases heq; exact hacc
      | cons k v rest =>
        have hv : sizeV v ≤ n := by simp [sizeF] at hs; have := sizeF_pos rest; omega
        have hrest : sizeF rest ≤ n := by simp [sizeF] at hs; have := sizeV_pos v; omega
        rw [buscarFields] at heq
        split at heq
        · exact pegarRows_ids (sizeL (elemsDe v)) (elemsDe v) acc res le_rfl hacc heq
        · split at heq
          next => cases heq
          next acc2 hbuscar =>
            exact ihF rest acc2 res hrest (ihV v acc acc2 hv hacc hbuscar) heq
    · intro l acc res hs hacc heq
      cases l with
      | nil => rw [buscarList] at heq; cases heq; exact hacc
      | cons x rest =>
        have hx : sizeV x ≤ n := by simp [sizeL] at hs; have := sizeL_pos rest; omega
        have hrest : sizeL rest ≤ n := by simp [sizeL] at hs; have := sizeV_pos x; omega
        rw [buscarList] at heq
        split at heq
        next => cases heq
        next acc2 hbuscar =>
          exact ihL rest acc2 res hrest (ihV x acc acc2 hx hacc hbuscar) heq

/-- Rows returned by the extraction carry ids `0, 1, ..., N-1` in traversal
order. -/
theorem extrair_ids {dados : JValue} {rows : List Row}
    (h : extrair_resultados_recursivamente dados = .ok rows) :
    rows.map Row.id = List.range rows.length :=
  (busca_ids (sizeV dados)).1 dados [] rows le_rfl idsOk_nil h

/-! ## Helper lemmas: the retrieval loop -/

theorem buscaLoop_cons_sentinela (d : ℚ) (rest : List (ℚ × Int)) (i : Nat)
    (m : List Meta) :
    buscaLoop ((d, -1) :: rest) i m = buscaLoop rest (i + 1) m := by
  simp [buscaLoop]

theorem buscaLoop_cons_idxFora {id : Int} {m : List Meta} (d : ℚ)
    (rest : List (ℚ × Int)) (i : Nat) (hid : id ≠ -1)
    (hp : pyListIdx m.length id = none) :
    buscaLoop ((d, id) :: rest) i m = none := by
  rw [buscaLoop, if_neg hid, hp]

theorem buscaLoop_cons_getNone {id : Int} {m : List Meta} {pos : Nat} (d : ℚ)
    (rest : List (ℚ × Int)) (i : Nat) (hid : id ≠ -1)
    (hp : pyListIdx m.length id = some pos) (hg : m.get? pos = none) :
    buscaLoop ((d, id) :: rest) i m = none := by
  rw [buscaLoop, if_neg hid, hp]
  dsimp only
  rw [hg]

theorem buscaLoop_cons_hit {id : Int} {m : List Meta} {pos : Nat} {doc : Meta} (d : ℚ)
    (rest : List (ℚ × Int)) (i : Nat) (hid : id ≠ -1)
    (hp : pyListIdx m.length id = some pos) (hg : m.get? pos = some doc) :
    buscaLoop ((d, id) :: rest) i m =
      match buscaLoop rest (i + 1)
          (m.set pos ⟨doc.id, doc.path, doc.conteudo, some (i + 1), some d⟩) with
      | none => none
      | some (mFin, posRest) => some (mFin, pos :: posRest) := by
  rw [buscaLoop, if_neg hid, hp]
  dsimp only
  rw [hg]

theorem buscaLoop_sentinelas (m : Nat) (i : Nat) (metadados : List Meta) :
    buscaLoop (List.replicate m (0, -1)) i metadados = some (metadados, []) := by
  induction m generalizing i with
  | zero => rfl
  | succ m ih => rw [List.replicate_succ, buscaLoop_cons_sentinela, ih]

theorem buscaLoop_append (h1 h2 : List (ℚ × Int)) (i : Nat) (m : List Meta) :
    buscaLoop (h1 ++ h2) i m =
      match buscaLoop h1 i m with
      | none => none
      | some (m1, p1) =>
        match buscaLoop h2 (i + h1.length) m1 with
        | none => none
        | some (m2, p2) => some (m2, p1 ++ p2) := by
  induction h1 generalizing i m with
  | nil =>
    simp only [List.nil_append, buscaLoop, List.length_nil, Nat.add_zero]
    cases buscaLoop h2 i m with
    | none => rfl
    | some par => cases par with | mk m2 p2 => simp
  | cons hd tl ih =>
    obtain ⟨d, id⟩ := hd
    rw [List.cons_append, List.length_cons]
    have harith : i + 1 + tl.length = i + (tl.length + 1) := by omega
    by_cases hid : id = -1
    · subst hid
      rw [buscaLoop_cons_sentinela, buscaLoop_cons_sentinela, ih, harith]
    · cases hp : pyListIdx m.length id with
      | none => rw [buscaLoop_cons_idxFora d _ i hid hp, buscaLoop_cons_idxFora d _ i hid hp]
      | some pos =>
        cases hg : m.get? pos with
        | none => rw [buscaLoop_cons_getNone d _ i hid hp hg, buscaLoop_cons_getNone d _ i hid hp hg]
        | some doc =>
          rw [buscaLoop_cons_hit d _ i hid hp hg, buscaLoop_cons_hit d _ i hid hp hg, ih, harith]
          cases hb : buscaLoop tl (i + 1)
              (m.set pos ⟨doc.id, doc.path, doc.conteudo, some (i + 1), some d⟩) with
          | none => rfl
          | some par =>
            obtain ⟨m1, p1⟩ := par
            dsimp only
            cases hb2 : buscaLoop h2 (i + (tl.length + 1)) m1 with
            | none => rfl
            | some par2 =>
              obtain ⟨m2, p2⟩ := par2
              simp

/-- Behaviour of the retrieval loop on sentinel-free hit lists with valid,
pairwise-distinct ids: every hit is looked up, annotated with its 1-based
rank and distance, written back in place, and its position reported; entries
whose position was never hit are untouched. -/
theorem buscaLoop_spec :
    ∀ (hits : List (ℚ × Int)) (i : Nat) (metadados : List Meta),
      (∀ h ∈ hits, 0 ≤ h.2 ∧ h.2.toNat < metadados.length) →
      (hits.map Prod.snd).Nodup →
      ∃ mFin : List Meta,
        buscaLoop hits i metadados = some (mFin, hits.map (fun h => h.2.toNat)) ∧
        mFin.length = metadados.length ∧
        (∀ p : Nat, p ∉ hits.map (fun h => h.2.toNat) → mFin.get? p = metadados.get? p) ∧
        (∀ j (hj : j < hits.length),
          mFin.get? ((hits.get ⟨j, hj⟩).2.toNat) =
            (metadados.get? ((hits.get ⟨j, hj⟩).2.toNat)).map
              (fun doc => ⟨doc.id, doc.path, doc.conteudo, some (i + j + 1),
                some (hits.get ⟨j, hj⟩).1⟩)) := by
  intro hits
  induction hits with
  | nil =>
    intro i m _ _
    exact ⟨m, rfl, rfl, fun _ _ => rfl, fun j hj => absurd hj (Nat.not_lt_zero j)⟩
  | cons hd tl ih =>
    intro i m hvalid hnodup
    obtain ⟨d, id⟩ := hd
    have hv0 := hvalid (d, id) (List.mem_cons_self _ _)
    have hid : id ≠ -1 := by
      have := hv0.1
      omega
    have hp : pyListIdx m.length id = some id.toNat := by
      simp [pyListIdx, hv0.1, hv0.2]
    have hlt : id.toNat < m.length := hv0.2
    have hg : m.get? id.toNat = some (m.get ⟨id.toNat, hlt⟩) := List.get?_eq_get hlt
    set doc := m.get ⟨id.toNat, hlt⟩ with hdoc
    set m2 : List Meta :=
      m.set id.toNat ⟨doc.id, doc.path, doc.conteudo, some (i + 1), some d⟩ with hm2
    have hlen2 : m2.length = m.length := by simp [hm2]
    have hnotmem : id ∉ tl.map Prod.snd := (List.nodup_cons.mp hnodup).1
    have hnodup2 : (tl.map Prod.snd).Nodup := (List.nodup_cons.mp hnodup).2
    have hvalid2 : ∀ h ∈ tl, 0 ≤ h.2 ∧ h.2.toNat < m2.length := by
      intro h hmem
      rw [hlen2]
      exact hvalid h (List.mem_cons_of_mem _ hmem)
    have hposNotmem : id.toNat ∉ tl.map (fun h => h.2.toNat) := by
      intro hmem
      obtain ⟨x, hx, hxeq⟩ := List.mem_map.mp hmem
      have hx0 := (hvalid x (List.mem_cons_of_mem _ hx)).1
      have : x.2 = id := by omega
      exact hnotmem (this ▸ List.mem_map_of_mem Prod.snd hx)
    obtain ⟨mFin, hLoop, hLen, hUntouched, hHits⟩ := ih (i + 1) m2 hvalid2 hnodup2
    refine ⟨mFin, ?_, ?_, ?_, ?_⟩
    · rw [buscaLoop_cons_hit d tl i hid hp hg, hLoop]
      simp
    · rw [hLen, hlen2]
    · intro p hpmem
      have hp1 : p ∉ tl.map (fun h => h.2.toNat) := by
        intro hx
        exact hpmem (List.mem_cons_of_mem _ hx)
      have hp2 : p ≠ id.toNat := by
        intro hx
        exact hpmem (hx ▸ List.mem_cons_self _ _)
      rw [hUntouched p hp1, hm2, List.get?_set_ne _ _ (fun hx => hp2 hx.symm)]
    · intro j hj
      cases j with
      | zero =>
        have hget0 : ((d, id) :: tl).get ⟨0, hj⟩ = (d, id) := rfl
        rw [hget0]
        have h1 : mFin.get? id.toNat = m2.get? id.toNat := hUntouched id.toNat hposNotmem
        have h2 : m2.get? id.toNat =
            some ⟨doc.id, doc.path, doc.conteudo, some (i + 1), some d⟩ := by
          rw [hm2]
          exact List.get?_set_eq_of_lt _ hlt
        rw [h1, h2, hg]
        simp
      | succ j =>
        have hj2 : j < tl.length := by
          simpa using hj
        have hget : ((d, id) :: tl).get ⟨j + 1, hj⟩ = tl.get ⟨j, hj2⟩ := rfl
        rw [hget]
        have hx := hHits j hj2
        have hne : (tl.get ⟨j, hj2⟩).2.toNat ≠ id.toNat := by
          intro hx2
          apply hposNotmem
          rw [← hx2]
          exact List.mem_map_of_mem (fun h => h.2.toNat) (List.get_mem tl j hj2)
        have hm2get : m2.get? ((tl.get ⟨j, hj2⟩).2.toNat) =
            m.get? ((tl.get ⟨j, hj2⟩).2.toNat) := by
          rw [hm2]
          exact List.get?_set_ne _ _ (fun hx2 => hne hx2.symm)
        rw [hx, hm2get]
        have harith : i + 1 + j + 1 = i + (j + 1) + 1 := by omega
        rw [harith]

/-! ## Helper lemmas: the search model -/

theorem length_distsDe (index : FaissIndex) (q : List ℚ) :
    (distsDe index q).length = index.xb.length := by
  simp [distsDe]

theorem perm_ordenadoDe (index : FaissIndex) (q : List ℚ) :
    List.Perm (ordenadoDe index q) (distsDe index q) :=
  List.perm_insertionSort distRel (distsDe index q)

theorem length_ordenadoDe (index : FaissIndex) (q : List ℚ) :
    (ordenadoDe index q).length = index.xb.length := by
  rw [(perm_ordenadoDe index q).length_eq, length_distsDe]

theorem sorted_ordenadoDe (index : FaissIndex) (q : List ℚ) :
    List.Sorted distRel (ordenadoDe index q) :=
  List.sorted_insertionSort distRel (distsDe index q)

theorem mem_ordenadoDe_valid (index : FaissIndex) (q : List ℚ) :
    ∀ h ∈ ordenadoDe index q, 0 ≤ h.2 ∧ h.2.toNat < index.xb.length := by
  intro h hmem
  have hd : h ∈ distsDe index q := (perm_ordenadoDe index q).mem_iff.mp hmem
  obtain ⟨i, hi, heq⟩ := List.mem_map.mp hd
  have hilt : i < index.xb.length := List.mem_range.mp hi
  subst heq
  exact ⟨Int.natCast_nonneg i, by simpa using hilt⟩

theorem nodup_ordenadoDe_snd (index : FaissIndex) (q : List ℚ) :
    ((ordenadoDe index q).map Prod.snd).Nodup := by
  have hperm : List.Perm ((ordenadoDe index q).map Prod.snd)
      ((distsDe index q).map Prod.snd) :=
    (perm_ordenadoDe index q).map Prod.snd
  rw [hperm.nodup_iff]
  have hmm : (distsDe index q).map Prod.snd =
      (List.range index.xb.length).map Int.ofNat := by
    rw [distsDe, List.map_map]
    rfl
  rw [hmm]
  exact (List.nodup_range _).map (fun a b h => Int.ofNat.inj h)

/-- Every stored vector's distance appears among the scored slots. -/
theorem mem_distsDe_of_mem_xb (index : FaissIndex) (q : List ℚ) {v : List ℚ}
    (hv : v ∈ index.xb) : ∃ i : Nat, (sqL2 q v, (i : Int)) ∈ distsDe index q := by
  obtain ⟨i, heq⟩ := List.mem_iff_get.mp hv
  refine ⟨i.1, ?_⟩
  have hgd : index.xb.getD i.1 [] = v := by
    rw [List.getD_eq_get?, List.get?_eq_get i.isLt]
    simpa using heq
  refine List.mem_map.mpr ⟨i.1, List.mem_range.mpr i.isLt, ?_⟩
  rw [hgd]

/-! ## Claims -/

/-- C1: the analysis request `analisar_resultados_gemini` builds is the same
string whatever the original document text and retrieved passage block are —
the f-string interpolates neither argument, so the request content does not
include them and the analysis cannot be a function of either input.  This
contradicts the function's own docstring and prompt text (which announce the
XML and the passages "below") and the spec; evaluated here at concrete
inputs. -/
theorem c1_prompt_analise_constante :
    (∀ a b c d : String, prompt_analise a b = prompt_analise c d) ∧
    prompt_analise "<NFe><prod><xProd>acucar</xProd></prod></NFe>"
      "--- DOCUMENTO RANK 1 ---" = prompt_analise "" "" :=
  ⟨fun _ _ _ _ => rfl, rfl⟩

/-- C2 (counterexample): on `estruturaIrmaDepois` the second `ResultRows`
array — which sits under the sibling key `Depois`, after the matched
`ResultRows` key of the same dictionary, and not inside the matched array —
holds one row with both fields, yet extraction returns only the one row of
the first array: the claim that every nested dictionary and list outside a
matched `ResultRows` array is visited, and every valid row of each
`ResultRows` array kept, is false. -/
theorem c2_contraexemplo :
    extrair_resultados_recursivamente estruturaIrmaDepois =
      .ok [⟨0, .str "p1", "PATH: p1\nCONTEÚDO: c1"⟩] ∧
    extrair_resultados_recursivamente estruturaIrmaDepois ≠
      .ok [⟨0, .str "p1", "PATH: p1\nCONTEÚDO: c1"⟩,
           ⟨1, .str "p2", "PATH: p2\nCONTEÚDO: c2"⟩] := by
  decide

/-- C2 (amended): traversal descends through nested dictionaries and lists
but, once a `ResultRows` key holding a list is matched in a dictionary, it
consumes that array without descending into it and abandons the remaining
keys of that same dictionary.  Kept rows (those whose `Path` and HTML field
are both present and truthy) receive sequential ids 0,1,2,... in traversal
order.  In particular the depth-3 structure with 2 valid rows and 1 row
missing `Path` yields exactly the two passages with ids 0 and 1, and the
`ResultRows` array nested inside one of its rows is not descended into. -/
theorem c2_emendada :
    extrair_resultados_recursivamente estruturaProfunda =
      .ok [⟨0, .str "p1", "PATH: p1\nCONTEÚDO: c1"⟩,
           ⟨1, .str "p2", "PATH: p2\nCONTEÚDO: c2"⟩] ∧
    (∀ (dados : JValue) (rows : List Row),
      extrair_resultados_recursivamente dados = .ok rows →
      rows.map Row.id = List.range rows.length) ∧
    (∀ (rows : JList) (rest : JFields) (acc : List Row),
      buscarFields (.cons "ResultRows" (.arr rows) rest) acc = pegarRows rows acc) := by
  refine ⟨by decide, fun dados rows h => extrair_ids h, fun rows rest acc => ?_⟩
  rw [buscarFields]
  simp [ehLista, elemsDe]

/-- C2 (amended) at a concrete input: the depth-3 structure, plus the
sequential-ids conclusion instantiated on it. -/
theorem c2_emendada_witness :
    (extrair_resultados_recursivamente estruturaProfunda =
      .ok [⟨0, .str "p1", "PATH: p1\nCONTEÚDO: c1"⟩,
           ⟨1, .str "p2", "PATH: p2\nCONTEÚDO: c2"⟩]) ∧
    [⟨0, .str "p1", "PATH: p1\nCONTEÚDO: c1"⟩,
     (⟨1, .str "p2", "PATH: p2\nCONTEÚDO: c2"⟩ : Row)].map Row.id = List.range 2 :=
  ⟨c2_emendada.1, c2_emendada.2.1 estruturaProfunda _ c2_emendada.1⟩

/-- C4 (counterexample): the body `"123"` contains neither `[` nor `]`, yet
deserialization succeeds (the whole body is parsed as-is), so a body with no
bracket pair does not, in general, yield a reported parse failure; and the
main flow reports no deserialization error on it. -/
theorem c4_contraexemplo :
    pyFind "123".toList '[' = -1 ∧
    pyRFind "123".toList ']' = -1 ∧
    desserializar_json_resistente "123" = some (.num 123) ∧
    legislacaoMain encDois "t" "123" = .ok ⟨[], [.avisoNenhumaLinha]⟩ := by
  decide

/-- C4 (amended): when the body contains both a `[` and a `]`, only the
slice from the first `[` to the last `]` is parsed; otherwise the whole body
is parsed as-is.  Whenever parsing fails, the failure is reported and neither
an index file nor a metadata file is written; in particular a body with no
bracket pair that is not itself valid JSON yields a reported parse failure
and no files. -/
theorem c4_emendada (enc : String → List ℚ) (termo texto : String) :
    (pyFind texto.toList '[' ≠ -1 → pyRFind texto.toList ']' ≠ -1 →
      desserializar_json_resistente texto =
        json_loads (String.mk ((texto.toList.drop (pyFind texto.toList '[').toNat).take
          ((pyRFind texto.toList ']').toNat + 1 - (pyFind texto.toList '[').toNat)))) ∧
    (pyFind texto.toList '[' = -1 ∨ pyRFind texto.toList ']' = -1 →
      desserializar_json_resistente texto = json_loads texto) ∧
    (desserializar_json_resistente texto = none →
      legislacaoMain enc termo texto = .ok ⟨[], [.erroDesserializacao]⟩) := by
  refine ⟨?_, ?_, ?_⟩
  · intro h1 h2
    unfold desserializar_json_resistente
    dsimp only
    rw [if_pos]
    simp only [Bool.and_eq_true, bne_iff_ne, ne_eq]
    exact ⟨h1, h2⟩
  · intro h
    unfold desserializar_json_resistente
    dsimp only
    rw [if_neg]
    simp only [Bool.and_eq_true, bne_iff_ne, ne_eq, not_and]
    rcases h with h | h
    · intro hx
      exact absurd h hx
    · intro _ hx
      exact hx h
  · intro h
    unfold legislacaoMain
    rw [h]

/-- C4 (amended) at concrete inputs. -/
theorem c4_emendada_witness :
    (desserializar_json_resistente "x[1]y" = json_loads "[1]") ∧
    (desserializar_json_resistente "abc" = json_loads "abc") ∧
    (legislacaoMain encDois "t" "abc" = .ok ⟨[], [.erroDesserializacao]⟩) := by
  refine ⟨?_, ?_, ?_⟩
  · exact ((c4_emendada encDois "t" "x[1]y").1 (by decide) (by decide)).trans
      (congrArg json_loads (by decide))
  · exact (c4_emendada encDois "t" "abc").2.1 (by decide)
  · exact (c4_emendada encDois "t" "abc").2.2 (by decide)

/-- C7: every way a Gemini response can fail to be the required two-field
structure makes the Term Extractor fail, never succeed with an empty term:
text that is not parseable as JSON; a JSON payload that is not an object
(`.get` raises, caught); a missing `termo_curto` key (`.get` defaults to
`''`, empty after strip); a non-string `termo_curto` (`.strip` raises,
caught); a `termo_curto` that trims to the empty string; and the same three
shapes for `termo_completo`.  Upon that failure `main` exits with code 1
having invoked only the read and term-extraction stages — no corpus build,
no retrieval, no analysis, no rendering. -/
theorem c7_falha_termos (resp xml : String) (corpusOk : Bool)
    (busca respAnalise : Option String) :
    (json_loads resp = none → extrairTermosDeResposta resp = none) ∧
    (∀ v : JValue, json_loads resp = some v → (∀ fields : JFields, v ≠ .obj fields) →
      extrairTermosDeResposta resp = none) ∧
    (∀ fields : JFields, json_loads resp = some (.obj fields) →
      lookupField fields "termo_curto" = none →
      extrairTermosDeResposta resp = none) ∧
    (∀ (fields : JFields) (v : JValue), json_loads resp = some (.obj fields) →
      lookupField fields "termo_curto" = some v → (∀ s : String, v ≠ .str s) →
      extrairTermosDeResposta resp = none) ∧
    (∀ (fields : JFields) (s : String), json_loads resp = some (.obj fields) →
      lookupField fields "termo_curto" = some (.str s) → pyStrip s = "" →
      extrairTermosDeResposta resp = none) ∧
    (∀ fields : JFields, json_loads resp = some (.obj fields) →
      lookupField fields "termo_completo" = none →
      extrairTermosDeResposta resp = none) ∧
    (∀ (fields : JFields) (v : JValue), json_loads resp = some (.obj fields) →
      lookupField fields "termo_completo" = some v → (∀ s : String, v ≠ .str s) →
      extrairTermosDeResposta resp = none) ∧
    (∀ (fields : JFields) (s : String), json_loads resp = some (.obj fields) →
      lookupField fields "termo_completo" = some (.str s) → pyStrip s = "" →
      extrairTermosDeResposta resp = none) ∧
    (xml ≠ "" → extrairTermosDeResposta resp = none →
      mainNFe (some xml) (some resp) corpusOk busca respAnalise =
        ⟨[.leituraXml, .extracaoTermos], 1, none, false⟩) := by
  have hcampo_missing : ∀ (fields : JFields) (chave : String),
      lookupField fields chave = none → campoTermo fields chave = some "" := by
    intro fields chave hlook
    unfold campoTermo
    rw [hlook]
  have hcampo_nonstr : ∀ (fields : JFields) (chave : String) (v : JValue),
      lookupField fields chave = some v → (∀ s : String, v ≠ .str s) →
      campoTermo fields chave = none := by
    intro fields chave v hlook hne
    unfold campoTermo
    rw [hlook]
    cases v with
    | str s => exact absurd rfl (hne s)
    | null => rfl
    | bool b => rfl
    | num n => rfl
    | arr l => rfl
    | obj f => rfl
  have hcampo_vazio : ∀ (fields : JFields) (chave : String) (s : String),
      lookupField fields chave = some (.str s) → pyStrip s = "" →
      campoTermo fields chave = some "" := by
    intro fields chave s hlook hvazio
    unfold campoTermo
    rw [hlook]
    dsimp only
    rw [hvazio]
  have hfail_tc_none : ∀ fields : JFields, json_loads resp = some (.obj fields) →
      campoTermo fields "termo_curto" = none → extrairTermosDeResposta resp = none := by
    intro fields hjson hc
    unfold extrairTermosDeResposta
    rw [hjson]
    dsimp only
    rw [hc]
  have hfail_tc_vazio : ∀ fields : JFields, json_loads resp = some (.obj fields) →
      campoTermo fields "termo_curto" = some "" → extrairTermosDeResposta resp = none := by
    intro fields hjson hc
    unfold extrairTermosDeResposta
    rw [hjson]
    dsimp only
    rw [hc]
    cases campoTermo fields "termo_completo" with
    | none => rfl
    | some t => simp
  have hfail_tcomp_none : ∀ fields : JFields, json_loads resp = some (.obj fields) →
      campoTermo fields "termo_completo" = none → extrairTermosDeResposta resp = none := by
    intro fields hjson hc
    unfold extrairTermosDeResposta
    rw [hjson]
    dsimp only
    rw [hc]
    cases campoTermo fields "termo_curto" with
    | none => rfl
    | some t => rfl
  have hfail_tcomp_vazio : ∀ fields : JFields, json_loads resp = some (.obj fields) →
      campoTermo fields "termo_completo" = some "" →
      extrairTermosDeResposta resp = none := by
    intro fields hjson hc
    unfold extrairTermosDeResposta
    rw [hjson]
    dsimp only
    rw [hc]
    cases campoTermo fields "termo_curto" with
    | none => rfl
    | some t => simp
  refine ⟨?_, ?_, ?_, ?_, ?_, ?_, ?_, ?_, ?_⟩
  · intro h
    unfold extrairTermosDeResposta
    rw [h]
  · intro v hjson hne
    unfold extrairTermosDeResposta
    rw [hjson]
    cases v with
    | obj fields => exact absurd rfl (hne fields)
    | null => rfl
    | bool b => rfl
    | num n => rfl
    | str s => rfl
    | arr l => rfl
  · intro fields hjson hlook
    exact hfail_tc_vazio fields hjson (hcampo_missing fields "termo_curto" hlook)
  · intro fields v hjson hlook hne
    exact hfail_tc_none fields hjson (hcampo_nonstr fields "termo_curto" v hlook hne)
  · intro fields s hjson hlook hvazio
    exact hfail_tc_vazio fields hjson (hcampo_vazio fields "termo_curto" s hlook hvazio)
  · intro fields hjson hlook
    exact hfail_tcomp_vazio fields hjson (hcampo_missing fields "termo_completo" hlook)
  · intro fields v hjson hlook hne
    exact hfail_tcomp_none fields hjson (hcampo_nonstr fields "termo_completo" v hlook hne)
  · intro fields s hjson hlook hvazio
    exact hfail_tcomp_vazio fields hjson (hcampo_vazio fields "termo_completo" s hlook hvazio)
  · intro hxml hfalha
    unfold mainNFe
    dsimp only
    rw [if_neg hxml]
    unfold extrair_termos_gemini
    dsimp only
    rw [hfalha]

/-- C7 at concrete inputs: a whitespace-only `termo_curto`, a JSON-array
payload, an object missing `termo_curto`, and a numeric `termo_curto` all
fail extraction, and the first aborts the pipeline after the extraction
stage. -/
theorem c7_falha_termos_witness :
    extrairTermosDeResposta respostaTermosVazia = none ∧
    extrairTermosDeResposta "[1]" = none ∧
    extrairTermosDeResposta "\x7b\"termo_completo\": \"lei\"\x7d" = none ∧
    extrairTermosDeResposta "\x7b\"termo_curto\": 7, \"termo_completo\": \"lei\"\x7d" = none ∧
    mainNFe (some "<NFe/>") (some respostaTermosVazia) true (some "res")
      (some "# Análise") = ⟨[.leituraXml, .extracaoTermos], 1, none, false⟩ := by
  have h1 := c7_falha_termos respostaTermosVazia "<NFe/>" true (some "res") (some "# Análise")
  have hfail : extrairTermosDeResposta respostaTermosVazia = none :=
    h1.2.2.2.2.1
      (.cons "termo_curto" (.str "  ") (.cons "termo_completo" (.str "lei") .nil)) "  "
      (by decide) (by decide) (by decide)
  refine ⟨hfail, ?_, ?_, ?_, ?_⟩
  · exact (c7_falha_termos "[1]" "x" true none none).2.1
      (.arr (.cons (.num 1) .nil)) (by decide) (fun fields h => by cases h)
  · exact (c7_falha_termos "\x7b\"termo_completo\": \"lei\"\x7d" "x" true none none).2.2.1
      (.cons "termo_completo" (.str "lei") .nil) (by decide) (by decide)
  · exact (c7_falha_termos "\x7b\"termo_curto\": 7, \"termo_completo\": \"lei\"\x7d" "x"
      true none none).2.2.2.1
      (.cons "termo_curto" (.num 7) (.cons "termo_completo" (.str "lei") .nil)) (.num 7)
      (by decide) (by decide) (fun s h => by cases h)
  · exact h1.2.2.2.2.2.2.2.2 (by decide) hfail

/-- C8: a run whose portal response deserializes to a truthy structure from
which zero rows are extracted ends without error (`Except.ok`), writes no
file at all, and logs the no-rows warning; and the index builder itself,
handed the empty processed batch, writes nothing and warns instead of
creating empty files. -/
theorem c8_zero_linhas (enc : String → List ℚ) (termo corpo : String) (dados : JValue)
    (hdes : desserializar_json_resistente corpo = some dados)
    (htruthy : pyTruthy dados = true)
    (hzero : extrair_resultados_recursivamente dados = .ok []) :
    legislacaoMain enc termo corpo = .ok ⟨[], [.avisoNenhumaLinha]⟩ ∧
    construir_e_salvar_indice_faiss (processar_para_faiss enc [])
      ("faiss_index_" ++ termo) = ([], [.avisoSemVetores]) := by
  constructor
  · unfold legislacaoMain
    rw [hdes]
    dsimp only
    rw [if_pos htruthy, hzero]
    rfl
  · rfl

/-- C8 at a concrete input: the body `"[1]"` parses to a truthy list with no
`ResultRows`, so the run warns and writes nothing. -/
theorem c8_zero_linhas_witness :
    legislacaoMain encDois "t" "[1]" = .ok ⟨[], [.avisoNenhumaLinha]⟩ ∧
    construir_e_salvar_indice_faiss (processar_para_faiss encDois [])
      ("faiss_index_" ++ "t") = ([], [.avisoSemVetores]) :=
  c8_zero_linhas encDois "t" "[1]" (.arr (.cons (.num 1) .nil))
    (by decide) (by decide) (by decide)

/-- C9 (counterexample): with all earlier stages fine, the Gemini analysis
`"analise sem markdown"` does not start with a top-level heading, yet `main`
invokes PDF rendering on it — no markup-shape validation happens and no
fallback is substituted, contradicting the claim. -/
theorem c9_contraexemplo :
    comecaComTituloDeNivel1 "analise sem markdown" = false ∧
    mainNFe (some "<NFe/>") (some respostaTermosValida) true (some "res")
      (some "analise sem markdown") =
      ⟨[.leituraXml, .extracaoTermos, .corpusJuridico, .buscaVetorial,
        .analiseInsights, .geracaoPdf], 0, some "analise sem markdown", true⟩ := by
  decide

/-- C9 (amended): the Report Generator performs no markup-shape validation.
Rendering is invoked exactly when the analysis text is non-empty and does
not contain the substring `"Erro de Análise"`.  When the Gemini call itself
fails, the minimal fallback error document — which does begin with a
top-level heading and carries that marker — is substituted and rendering is
skipped. -/
theorem c9_emendada (xml resp1 busca : String) (termos : String × String)
    (hxml : xml ≠ "") (hterm : extrairTermosDeResposta resp1 = some termos)
    (hbusca : contemSub "ERRO NA BUSCA FAISS" busca = false) :
    ((mainNFe (some xml) (some resp1) true (some busca) none).analise =
      some fallbackErroAnalise) ∧
    ((mainNFe (some xml) (some resp1) true (some busca) none).pdfGerado = false) ∧
    comecaComTituloDeNivel1 fallbackErroAnalise = true ∧
    contemSub "Erro de Análise" fallbackErroAnalise = true ∧
    (∀ t : String, (mainNFe (some xml) (some resp1) true (some busca) (some t)).pdfGerado =
      (t != "" && !contemSub "Erro de Análise" t)) := by
  have hmain : ∀ resp2 : Option String,
      mainNFe (some xml) (some resp1) true (some busca) resp2 =
        (if analisar_resultados_gemini xml busca resp2 != "" &&
            !contemSub "Erro de Análise" (analisar_resultados_gemini xml busca resp2) then
          ⟨[.leituraXml, .extracaoTermos, .corpusJuridico, .buscaVetorial,
            .analiseInsights, .geracaoPdf], 0,
            some (analisar_resultados_gemini xml busca resp2), true⟩
        else
          ⟨[.leituraXml, .extracaoTermos, .corpusJuridico, .buscaVetorial,
            .analiseInsights], 0,
            some (analisar_resultados_gemini xml busca resp2), false⟩) := by
    intro resp2
    unfold mainNFe
    dsimp only
    rw [if_neg hxml]
    unfold extrair_termos_gemini
    dsimp only
    rw [hterm]
    dsimp only
    rw [hbusca]
    rfl
  have hfb : (analisar_resultados_gemini xml busca none != "" &&
      !contemSub "Erro de Análise" (analisar_resultados_gemini xml busca none)) = false := by
    show (fallbackErroAnalise != "" && !contemSub "Erro de Análise" fallbackErroAnalise) = false
    decide
  refine ⟨?_, ?_, by decide, by decide, ?_⟩
  · rw [hmain none, hfb]
    rfl
  · rw [hmain none, hfb]
    rfl
  · intro t
    rw [hmain (some t)]
    have har : analisar_resultados_gemini xml busca (some t) = t := rfl
    rw [har]
    cases hcond : (t != "" && !contemSub "Erro de Análise" t) with
    | true => rfl
    | false => rfl

/-- C9 (amended) at concrete inputs. -/
theorem c9_emendada_witness :
    ((mainNFe (some "<NFe/>") (some respostaTermosValida) true (some "res") none).analise =
      some fallbackErroAnalise) ∧
    ((mainNFe (some "<NFe/>") (some respostaTermosValida) true (some "res") none).pdfGerado
      = false) ∧
    comecaComTituloDeNivel1 fallbackErroAnalise = true ∧
    contemSub "Erro de Análise" fallbackErroAnalise = true ∧
    ((mainNFe (some "<NFe/>") (some respostaTermosValida) true (some "res")
      (some "# Análise boa")).pdfGerado =
        ("# Análise boa" != "" && !contemSub "Erro de Análise" "# Análise boa")) := by
  have h := c9_emendada "<NFe/>" respostaTermosValida "res" ("acucar", "lei do acucar")
    (by decide) (by decide) (by decide)
  exact ⟨h.1, h.2.1, h.2.2.1, h.2.2.2.1, h.2.2.2.2 "# Análise boa"⟩

/-- C3: for any non-empty extraction result of `N` rows, building the corpus
through embedding (uniform positive dimension `d`), indexing and saving, then
loading the persisted pair back, yields an index of exactly `N` vectors, all
of dimension `d`, and a metadata list of exactly `N` entries whose entry at
position `i` carries id `i`. -/
theorem c3_indice_alinhado (enc : String → List ℚ) (d : Nat) (dados : JValue)
    (rows : List Row) (termo : String)
    (henc : ∀ s, (enc s).length = d) (hd : 0 < d)
    (hext : extrair_resultados_recursivamente dados = .ok rows) (hne : rows ≠ []) :
    ∃ (index : FaissIndex) (metadados : List Meta),
      carregar_indice_e_metadados
        (construir_e_salvar_indice_faiss (processar_para_faiss enc rows)
          ("faiss_index_" ++ termo)).1 termo = some (index, metadados) ∧
      index.xb.length = rows.length ∧
      (∀ v ∈ index.xb, v.length = d) ∧
      index.d = d ∧
      metadados.length = rows.length ∧
      (∀ i (hi : i < metadados.length), metadados[i].id = i) := by
  have hids := extrair_ids hext
  obtain ⟨r0, rest, rfl⟩ : ∃ r0 rest, rows = r0 :: rest := by
    cases rows with
    | nil => exact absurd rfl hne
    | cons a l => exact ⟨a, l, rfl⟩
  have hsize : numpySize (((r0 :: rest).map (fun r => enc r.conteudo))) ≠ 0 := by
    unfold numpySize
    simp only [List.map_cons, List.map_map, List.sum_cons, Function.comp]
    have := henc r0.conteudo
    omega
  have hbuild : construir_e_salvar_indice_faiss (processar_para_faiss enc (r0 :: rest))
      ("faiss_index_" ++ termo) =
      ([("faiss_index_" ++ termo ++ ".faiss",
          .indexFile ⟨(enc r0.conteudo).length,
            (r0 :: rest).map (fun r => enc r.conteudo)⟩),
        ("faiss_index_" ++ termo ++ "_metadados.json",
          .metaFile ((r0 :: rest).map
            (fun r => ⟨r.id, r.path, r.conteudo, none, none⟩)))],
       []) := by
    unfold construir_e_salvar_indice_faiss processar_para_faiss
    dsimp only
    rw [if_neg hsize]
    rfl
  have hneq : ¬("faiss_index_" ++ termo ++ ".faiss" =
      "faiss_index_" ++ termo ++ "_metadados.json") := by
    intro h
    have h2 := congrArg String.data h
    simp only [String.data_append] at h2
    have h3 := List.append_cancel_left h2
    exact absurd h3 (by decide)
  refine ⟨⟨(enc r0.conteudo).length, (r0 :: rest).map (fun r => enc r.conteudo)⟩,
    (r0 :: rest).map (fun r => ⟨r.id, r.path, r.conteudo, none, none⟩), ?_, ?_, ?_, ?_, ?_, ?_⟩
  · rw [hbuild]
    unfold carregar_indice_e_metadados
    dsimp only
    rw [lookupStore, if_pos rfl, lookupStore, if_neg hneq, lookupStore, if_pos rfl]
  · simp
  · intro v hv
    obtain ⟨r, hr, hveq⟩ := List.mem_map.mp hv
    rw [← hveq]
    exact henc r.conteudo
  · exact henc r0.conteudo
  · simp
  · intro i hi
    have hi2 : i < (r0 :: rest).length := by simpa using hi
    have hgm : ((r0 :: rest).map
        (fun r => (⟨r.id, r.path, r.conteudo, none, none⟩ : Meta)))[i].id =
        (r0 :: rest)[i].id := by
      simp only [List.getElem_map]
    rw [hgm]
    have hci := congrArg (fun l => l[i]?) hids
    simp only [List.getElem?_map] at hci
    have hrange : (List.range (r0 :: rest).length)[i]? = some i := by
      rw [List.getElem?_eq_getElem (by simpa using hi2)]
      simp
    rw [hrange] at hci
    rw [List.getElem?_eq_getElem hi2] at hci
    simpa using hci

/-- C3 at a concrete input: the two rows extracted from `estruturaProfunda`,
embedded at dimension 2, survive the build/save/load round trip aligned. -/
theorem c3_indice_alinhado_witness :
    ∃ (index : FaissIndex) (metadados : List Meta),
      carregar_indice_e_metadados
        (construir_e_salvar_indice_faiss (processar_para_faiss encDois
          [⟨0, .str "p1", "PATH: p1\nCONTEÚDO: c1"⟩,
           ⟨1, .str "p2", "PATH: p2\nCONTEÚDO: c2"⟩])
          ("faiss_index_" ++ "t")).1 "t" = some (index, metadados) ∧
      index.xb.length = [⟨0, .str "p1", "PATH: p1\nCONTEÚDO: c1"⟩,
          (⟨1, .str "p2", "PATH: p2\nCONTEÚDO: c2"⟩ : Row)].length ∧
      (∀ v ∈ index.xb, v.length = 2) ∧
      index.d = 2 ∧
      metadados.length = [⟨0, .str "p1", "PATH: p1\nCONTEÚDO: c1"⟩,
          (⟨1, .str "p2", "PATH: p2\nCONTEÚDO: c2"⟩ : Row)].length ∧
      (∀ i (hi : i < metadados.length), metadados[i].id = i) :=
  c3_indice_alinhado encDois 2 estruturaProfunda
    [⟨0, .str "p1", "PATH: p1\nCONTEÚDO: c1"⟩, ⟨1, .str "p2", "PATH: p2\nCONTEÚDO: c2"⟩]
    "t" (fun _ => rfl) (by decide) (by decide) (by decide)

/-- In a list sorted by ascending distance, the first slot's distance is a
lower bound for every member's distance. -/
theorem sorted_get_zero_le {l : List (ℚ × Int)} (hs : List.Sorted distRel l)
    (h0 : 0 < l.length) (x : ℚ × Int) (hx : x ∈ l) : (l.get ⟨0, h0⟩).1 ≤ x.1 := by
  cases l with
  | nil => simp at h0
  | cons hd tl =>
    rcases List.mem_cons.mp hx with rfl | hmem
    · exact le_refl _
    · exact List.rel_of_sorted_cons hs x hmem

/-- C6: querying an aligned index with `0 < k ≤` index size succeeds and
returns exactly `k` results whose 1-based ranks follow the list order, whose
distances are non-decreasing in rank, whose rank-1 distance is minimal over
every stored vector, and each of which is the metadata entry at the position
equal to the id returned by the search for that slot (annotated with its rank
and distance). -/
theorem c6_busca_topk (enc : String → List ℚ) (query : String) (index : FaissIndex)
    (metadados : List Meta) (k : Nat)
    (halign : metadados.length = index.xb.length)
    (hk : 0 < k) (hkn : k ≤ index.xb.length) :
    ∃ (mFin : List Meta) (resultados : List Meta) (saida : String),
      buscar_faiss enc query index metadados k = some (mFin, resultados, saida) ∧
      resultados.length = k ∧
      (∀ j (hj : j < resultados.length), resultados[j].rank = some (j + 1)) ∧
      (∀ j1 j2 (h1 : j1 < resultados.length) (h2 : j2 < resultados.length), j1 ≤ j2 →
        resultados[j1].distancia_l2.getD 0 ≤ resultados[j2].distancia_l2.getD 0) ∧
      (∀ v ∈ index.xb, ∀ (h0 : 0 < resultados.length),
        resultados[0].distancia_l2.getD 0 ≤ sqL2 (enc query) v) ∧
      (∀ j (hj : j < resultados.length),
        ∃ (id : Nat) (hid : id < metadados.length),
          (faissSearch index (enc query) k)[j]? =
            some (resultados[j].distancia_l2.getD 0, (id : Int)) ∧
          resultados[j] = ⟨metadados[id].id, metadados[id].path, metadados[id].conteudo,
            some (j + 1), some (resultados[j].distancia_l2.getD 0)⟩) := by
  have hhits : faissSearch index (enc query) k = (ordenadoDe index (enc query)).take k := by
    unfold faissSearch
    rw [Nat.sub_eq_zero_of_le hkn]
    simp
  have hlen_take : ((ordenadoDe index (enc query)).take k).length = k := by
    rw [List.length_take, length_ordenadoDe]
    omega
  have hvalid : ∀ h ∈ (ordenadoDe index (enc query)).take k,
      0 ≤ h.2 ∧ h.2.toNat < metadados.length := by
    intro h hm
    rw [halign]
    exact mem_ordenadoDe_valid index (enc query) h (List.take_subset _ _ hm)
  have hnodup : (((ordenadoDe index (enc query)).take k).map Prod.snd).Nodup := by
    rw [List.map_take]
    exact (nodup_ordenadoDe_snd index (enc query)).sublist (List.take_sublist _ _)
  obtain ⟨mFin, hLoop, hLen, hUnt, hHits⟩ :=
    buscaLoop_spec ((ordenadoDe index (enc query)).take k) 0 metadados hvalid hnodup
  set tk := (ordenadoDe index (enc query)).take k with htk
  set res := (tk.map (fun h => h.2.toNat)).map (fun p => mFin.getD p defaultMeta) with hresdef
  have hreslen : res.length = k := by
    rw [hresdef]
    simp [hlen_take]
  have hmp : ∀ (j : Nat) (hjt : j < tk.length),
      (tk.get ⟨j, hjt⟩).2.toNat < metadados.length := by
    intro j hjt
    exact (hvalid _ (List.get_mem tk j hjt)).2
  have hres : ∀ (j : Nat) (hjt : j < tk.length),
      res.get? j = (metadados.get? ((tk.get ⟨j, hjt⟩).2.toNat)).map
        (fun doc => ⟨doc.id, doc.path, doc.conteudo, some (j + 1),
          some (tk.get ⟨j, hjt⟩).1⟩) := by
    intro j hjt
    rw [hresdef, List.get?_eq_getElem?, List.getElem?_map, List.getElem?_map,
      List.getElem?_eq_getElem hjt]
    have hget : tk[j] = tk.get ⟨j, hjt⟩ := rfl
    rw [hget]
    simp only [Option.map_some']
    have hx := hHits j hjt
    have hgd : mFin.getD ((tk.get ⟨j, hjt⟩).2.toNat) defaultMeta =
        (mFin.get? ((tk.get ⟨j, hjt⟩).2.toNat)).getD defaultMeta := by
      rw [List.getD_eq_get?]
    rw [hgd, hx, List.get?_eq_get (hmp j hjt)]
    simp [Nat.zero_add]
  have hentry : ∀ (j : Nat) (hjt : j < tk.length) (hj : j < res.length),
      ∃ doc : Meta, metadados.get? ((tk.get ⟨j, hjt⟩).2.toNat) = some doc ∧
        res.get ⟨j, hj⟩ = ⟨doc.id, doc.path, doc.conteudo, some (j + 1),
          some (tk.get ⟨j, hjt⟩).1⟩ := by
    intro j hjt hj
    have h1 := hres j hjt
    rw [List.get?_eq_get hj, List.get?_eq_get (hmp j hjt)] at h1
    simp only [Option.map_some'] at h1
    exact ⟨metadados.get ⟨(tk.get ⟨j, hjt⟩).2.toNat, hmp j hjt⟩,
      List.get?_eq_get (hmp j hjt), Option.some_inj.mp h1⟩
  have hsorted_tk : List.Sorted distRel tk :=
    List.Pairwise.sublist (List.take_sublist _ _) (sorted_ordenadoDe index (enc query))
  refine ⟨mFin, res, formatarSaida res, ?_, hreslen, ?_, ?_, ?_, ?_⟩
  · unfold buscar_faiss
    dsimp only
    rw [hhits, hLoop]
  · intro j hj
    have hjt : j < tk.length := by
      rw [hlen_take]
      omega
    obtain ⟨doc, hdoc, he⟩ := hentry j hjt hj
    have hb : res[j] = res.get ⟨j, hj⟩ := rfl
    rw [hb, he]
  · intro j1 j2 h1 h2 hle
    have hjt1 : j1 < tk.length := by
      rw [hlen_take]
      omega
    have hjt2 : j2 < tk.length := by
      rw [hlen_take]
      omega
    obtain ⟨doc1, hdoc1, he1⟩ := hentry j1 hjt1 h1
    obtain ⟨doc2, hdoc2, he2⟩ := hentry j2 hjt2 h2
    have hb1 : res[j1] = res.get ⟨j1, h1⟩ := rfl
    have hb2 : res[j2] = res.get ⟨j2, h2⟩ := rfl
    rw [hb1, hb2, he1, he2]
    dsimp only [Option.getD_some]
    rcases Nat.lt_or_ge j1 j2 with hlt | hge
    · exact hsorted_tk.rel_get_of_lt (by simpa using hlt)
    · have hj12 : j1 = j2 := by omega
      subst hj12
      exact le_refl _
  · intro v hv h0
    have hjt0 : 0 < tk.length := by
      rw [hlen_take]
      omega
    obtain ⟨doc0, hdoc0, he0⟩ := hentry 0 hjt0 h0
    have hb0 : res[0] = res.get ⟨0, h0⟩ := rfl
    rw [hb0, he0]
    dsimp only [Option.getD_some]
    obtain ⟨i, hm⟩ := mem_distsDe_of_mem_xb index (enc query) hv
    have hmo : (sqL2 (enc query) v, (i : Int)) ∈ ordenadoDe index (enc query) :=
      (perm_ordenadoDe index (enc query)).mem_iff.mpr hm
    have hlen0 : 0 < (ordenadoDe index (enc query)).length := by
      rw [length_ordenadoDe]
      omega
    have h0q : tk[0]? = (ordenadoDe index (enc query))[0]? := by
      rw [htk]
      exact List.getElem?_take_of_lt hk
    rw [List.getElem?_eq_getElem hjt0, List.getElem?_eq_getElem hlen0] at h0q
    have htk0 : tk.get ⟨0, hjt0⟩ = (ordenadoDe index (enc query)).get ⟨0, hlen0⟩ :=
      Option.some_inj.mp h0q
    rw [htk0]
    exact sorted_get_zero_le (sorted_ordenadoDe index (enc query)) hlen0 _ hmo
  · intro j hj
    have hjt : j < tk.length := by
      rw [hlen_take]
      omega
    obtain ⟨doc, hdoc, he⟩ := hentry j hjt hj
    have hb : res[j] = res.get ⟨j, hj⟩ := rfl
    refine ⟨(tk.get ⟨j, hjt⟩).2.toNat, hmp j hjt, ?_, ?_⟩
    · rw [hhits, List.getElem?_eq_getElem hjt, hb, he]
      dsimp only [Option.getD_some]
      have hnn : 0 ≤ (tk.get ⟨j, hjt⟩).2 := (hvalid _ (List.get_mem tk j hjt)).1
      have h2 : ((tk.get ⟨j, hjt⟩).2.toNat : Int) = (tk.get ⟨j, hjt⟩).2 :=
        Int.toNat_of_nonneg hnn
      rw [h2]
      have hpair : tk[j] = ((tk.get ⟨j, hjt⟩).1, (tk.get ⟨j, hjt⟩).2) := rfl
      rw [hpair]
    · have hmpj := hmp j hjt
      have hdocg : doc = metadados[(tk.get ⟨j, hjt⟩).2.toNat] := by
        have hge := List.get?_eq_get (hmp j hjt)
        rw [hge] at hdoc
        exact (Option.some_inj.mp hdoc).symm
      rw [hb, he]
      dsimp only [Option.getD_some]
      rw [hdocg]

/-- C6 at a concrete input: two stored vectors, `k = 2`. -/
theorem c6_busca_topk_witness :
    ∃ (mFin : List Meta) (resultados : List Meta) (saida : String),
      buscar_faiss encZero "consulta" indexDois metaDois 2 = some (mFin, resultados, saida) ∧
      resultados.length = 2 ∧
      (∀ j (hj : j < resultados.length), resultados[j].rank = some (j + 1)) ∧
      (∀ j1 j2 (h1 : j1 < resultados.length) (h2 : j2 < resultados.length), j1 ≤ j2 →
        resultados[j1].distancia_l2.getD 0 ≤ resultados[j2].distancia_l2.getD 0) ∧
      (∀ v ∈ indexDois.xb, ∀ (h0 : 0 < resultados.length),
        resultados[0].distancia_l2.getD 0 ≤ sqL2 (encZero "consulta") v) ∧
      (∀ j (hj : j < resultados.length),
        ∃ (id : Nat) (hid : id < metaDois.length),
          (faissSearch indexDois (encZero "consulta") 2)[j]? =
            some (resultados[j].distancia_l2.getD 0, (id : Int)) ∧
          resultados[j] = ⟨metaDois[id].id, metaDois[id].path, metaDois[id].conteudo,
            some (j + 1), some (resultados[j].distancia_l2.getD 0)⟩) :=
  c6_busca_topk encZero "consulta" indexDois metaDois 2 (by decide) (by decide) (by decide)

/-- C5: querying an aligned index holding fewer than `k` vectors succeeds
(no crash): every slot carrying the sentinel id `-1` is skipped, so the
query returns exactly one result per stored vector — fewer than `k` — and
every returned result is a genuine metadata entry (its fields are those of
the entry at the hit position; rank and distance are populated, never
absent). -/
theorem c5_sentinelas (enc : String → List ℚ) (query : String) (index : FaissIndex)
    (metadados : List Meta) (k : Nat)
    (halign : metadados.length = index.xb.length)
    (hk : index.xb.length < k) :
    ∃ (mFin : List Meta) (resultados : List Meta) (saida : String),
      buscar_faiss enc query index metadados k = some (mFin, resultados, saida) ∧
      resultados.length = index.xb.length ∧
      resultados.length < k ∧
      (∀ j (hj : j < resultados.length),
        ∃ (id : Nat) (hid : id < metadados.length),
          resultados[j] = ⟨metadados[id].id, metadados[id].path, metadados[id].conteudo,
            some (j + 1), some (resultados[j].distancia_l2.getD 0)⟩) := by
  have hfull : (ordenadoDe index (enc query)).take k = ordenadoDe index (enc query) :=
    List.take_of_length_le (by rw [length_ordenadoDe]; omega)
  have hvalid : ∀ h ∈ ordenadoDe index (enc query),
      0 ≤ h.2 ∧ h.2.toNat < metadados.length := by
    intro h hm
    rw [halign]
    exact mem_ordenadoDe_valid index (enc query) h hm
  obtain ⟨mFin, hLoop, hLen, hUnt, hHits⟩ :=
    buscaLoop_spec (ordenadoDe index (enc query)) 0 metadados hvalid
      (nodup_ordenadoDe_snd index (enc query))
  set tk := ordenadoDe index (enc query) with htk
  have hhits : faissSearch index (enc query) k =
      tk ++ List.replicate (k - index.xb.length) (0, -1) := by
    unfold faissSearch
    rw [hfull]
  have hlen_tk : tk.length = index.xb.length := length_ordenadoDe index (enc query)
  have hLoopFull : buscaLoop (tk ++ List.replicate (k - index.xb.length) (0, -1)) 0 metadados =
      some (mFin, tk.map (fun h => h.2.toNat)) := by
    rw [buscaLoop_append, hLoop]
    dsimp only
    rw [buscaLoop_sentinelas]
    dsimp only
    rw [List.append_nil]
  set res := (tk.map (fun h => h.2.toNat)).map (fun p => mFin.getD p defaultMeta) with hresdef
  have hreslen : res.length = index.xb.length := by
    rw [hresdef]
    simp [hlen_tk]
  have hmp : ∀ (j : Nat) (hjt : j < tk.length),
      (tk.get ⟨j, hjt⟩).2.toNat < metadados.length := by
    intro j hjt
    exact (hvalid _ (List.get_mem tk j hjt)).2
  have hres : ∀ (j : Nat) (hjt : j < tk.length),
      res.get? j = (metadados.get? ((tk.get ⟨j, hjt⟩).2.toNat)).map
        (fun doc => ⟨doc.id, doc.path, doc.conteudo, some (j + 1),
          some (tk.get ⟨j, hjt⟩).1⟩) := by
    intro j hjt
    rw [hresdef, List.get?_eq_getElem?, List.getElem?_map, List.getElem?_map,
      List.getElem?_eq_getElem hjt]
    have hget : tk[j] = tk.get ⟨j, hjt⟩ := rfl
    rw [hget]
    simp only [Option.map_some']
    have hx := hHits j hjt
    have hgd : mFin.getD ((tk.get ⟨j, hjt⟩).2.toNat) defaultMeta =
        (mFin.get? ((tk.get ⟨j, hjt⟩).2.toNat)).getD defaultMeta := by
      rw [List.getD_eq_get?]
    rw [hgd, hx, List.get?_eq_get (hmp j hjt)]
    simp [Nat.zero_add]
  refine ⟨mFin, res, formatarSaida res, ?_, hreslen, by omega, ?_⟩
  · unfold buscar_faiss
    dsimp only
    rw [hhits, hLoopFull]
  · intro j hj
    have hjt : j < tk.length := by
      rw [hlen_tk]
      omega
    have h1 := hres j hjt
    rw [List.get?_eq_get hj, List.get?_eq_get (hmp j hjt)] at h1
    simp only [Option.map_some'] at h1
    have he := Option.some_inj.mp h1
    have hmpj := hmp j hjt
    refine ⟨(tk.get ⟨j, hjt⟩).2.toNat, hmpj, ?_⟩
    have hb : res[j] = res.get ⟨j, hj⟩ := rfl
    have hdocg : metadados.get ⟨(tk.get ⟨j, hjt⟩).2.toNat, hmpj⟩ =
        metadados[(tk.get ⟨j, hjt⟩).2.toNat] := rfl
    rw [hb, he]
    dsimp only [Option.getD_some]
    rw [← hdocg]

/-- C5 at a concrete input: two stored vectors, `k = 5`. -/
theorem c5_sentinelas_witness :
    ∃ (mFin : List Meta) (resultados : List Meta) (saida : String),
      buscar_faiss encZero "consulta" indexDois metaDois 5 = some (mFin, resultados, saida) ∧
      resultados.length = indexDois.xb.length ∧
      resultados.length < 5 ∧
      (∀ j (hj : j < resultados.length),
        ∃ (id : Nat) (hid : id < metaDois.length),
          resultados[j] = ⟨metaDois[id].id, metaDois[id].path, metaDois[id].conteudo,
            some (j + 1), some (resultados[j].distancia_l2.getD 0)⟩) :=
  c5_sentinelas encZero "consulta" indexDois metaDois 5 (by decide) (by decide)

/-- C10: the query mutates the loaded metadata list in place — the list
returned alongside the results has the same length, every entry is either
the original (untouched positions) or exactly one of the returned results,
and each returned result is (not a copy of, but) the entry of the mutated
metadata list at its hit position, which now carries the query's `rank` and
`distancia_l2` annotations. -/
theorem c10_mutacao_em_lugar (enc : String → List ℚ) (query : String) (index : FaissIndex)
    (metadados : List Meta) (k : Nat)
    (halign : metadados.length = index.xb.length) :
    ∃ (mFin resultados : List Meta) (saida : String),
      buscar_faiss enc query index metadados k = some (mFin, resultados, saida) ∧
      mFin.length = metadados.length ∧
      (∀ j (hj : j < resultados.length), ∃ (pos : Nat) (hpos : pos < mFin.length),
        resultados.get ⟨j, hj⟩ = mFin.get ⟨pos, hpos⟩ ∧
        (mFin.get ⟨pos, hpos⟩).rank = some (j + 1) ∧
        ∃ d : ℚ, (mFin.get ⟨pos, hpos⟩).distancia_l2 = some d) ∧
      (∀ p (hp : p < mFin.length),
        mFin.get? p = metadados.get? p ∨
        ∃ (j : Nat) (hj : j < resultados.length),
          resultados.get ⟨j, hj⟩ = mFin.get ⟨p, hp⟩) := by
  have hvalid : ∀ h ∈ (ordenadoDe index (enc query)).take k,
      0 ≤ h.2 ∧ h.2.toNat < metadados.length := by
    intro h hm
    rw [halign]
    exact mem_ordenadoDe_valid index (enc query) h (List.take_subset _ _ hm)
  have hnodup : (((ordenadoDe index (enc query)).take k).map Prod.snd).Nodup := by
    rw [List.map_take]
    exact (nodup_ordenadoDe_snd index (enc query)).sublist (List.take_sublist _ _)
  obtain ⟨mFin, hLoop, hLen, hUnt, hHits⟩ :=
    buscaLoop_spec ((ordenadoDe index (enc query)).take k) 0 metadados hvalid hnodup
  set tk := (ordenadoDe index (enc query)).take k with htk
  have hfs : faissSearch index (enc query) k =
      tk ++ List.replicate (k - index.xb.length) (0, -1) := by
    rw [htk]
    rfl
  have hLoopFull : buscaLoop (tk ++ List.replicate (k - index.xb.length) (0, -1)) 0 metadados =
      some (mFin, tk.map (fun h => h.2.toNat)) := by
    rw [buscaLoop_append, hLoop]
    dsimp only
    rw [buscaLoop_sentinelas]
    dsimp only
    rw [List.append_nil]
  set posL := tk.map (fun h => h.2.toNat) with hposL
  set res := posL.map (fun p => mFin.getD p defaultMeta) with hresdef
  have hmp : ∀ (j : Nat) (hjt : j < tk.length),
      (tk.get ⟨j, hjt⟩).2.toNat < metadados.length := by
    intro j hjt
    exact (hvalid _ (List.get_mem tk j hjt)).2
  have hreslen : res.length = tk.length := by
    rw [hresdef, hposL]
    simp
  have hentry : ∀ (j : Nat) (hjt : j < tk.length) (hj : j < res.length),
      res.get ⟨j, hj⟩ = mFin.getD ((tk.get ⟨j, hjt⟩).2.toNat) defaultMeta := by
    intro j hjt hj
    have h1 : res.get? j = some (mFin.getD ((tk.get ⟨j, hjt⟩).2.toNat) defaultMeta) := by
      rw [hresdef, List.get?_eq_getElem?, List.getElem?_map, hposL, List.getElem?_map,
        List.getElem?_eq_getElem hjt]
      rfl
    rw [List.get?_eq_get hj] at h1
    exact Option.some_inj.mp h1
  have hupd : ∀ (j : Nat) (hjt : j < tk.length),
      mFin.get? ((tk.get ⟨j, hjt⟩).2.toNat) =
        some ⟨(metadados.get ⟨(tk.get ⟨j, hjt⟩).2.toNat, hmp j hjt⟩).id,
          (metadados.get ⟨(tk.get ⟨j, hjt⟩).2.toNat, hmp j hjt⟩).path,
          (metadados.get ⟨(tk.get ⟨j, hjt⟩).2.toNat, hmp j hjt⟩).conteudo,
          some (j + 1), some (tk.get ⟨j, hjt⟩).1⟩ := by
    intro j hjt
    have hx := hHits j hjt
    rw [List.get?_eq_get (hmp j hjt)] at hx
    simp only [Option.map_some'] at hx
    rw [hx]
    simp [Nat.zero_add]
  refine ⟨mFin, res, formatarSaida res, ?_, by rw [hLen], ?_, ?_⟩
  · unfold buscar_faiss
    dsimp only
    rw [hfs, hLoopFull]
  · intro j hj
    have hjt : j < tk.length := by
      rw [← hreslen]
      omega
    have hposlt : (tk.get ⟨j, hjt⟩).2.toNat < mFin.length := by
      rw [hLen]
      exact hmp j hjt
    refine ⟨(tk.get ⟨j, hjt⟩).2.toNat, hposlt, ?_, ?_, ?_⟩
    · rw [hentry j hjt hj, List.getD_eq_get?, List.get?_eq_get hposlt]
      rfl
    · have hg : mFin.get ⟨(tk.get ⟨j, hjt⟩).2.toNat, hposlt⟩ =
          (mFin.get? ((tk.get ⟨j, hjt⟩).2.toNat)).getD defaultMeta := by
        rw [List.get?_eq_get hposlt]
        rfl
      rw [hg, hupd j hjt]
      rfl
    · refine ⟨(tk.get ⟨j, hjt⟩).1, ?_⟩
      have hg : mFin.get ⟨(tk.get ⟨j, hjt⟩).2.toNat, hposlt⟩ =
          (mFin.get? ((tk.get ⟨j, hjt⟩).2.toNat)).getD defaultMeta := by
        rw [List.get?_eq_get hposlt]
        rfl
      rw [hg, hupd j hjt]
      rfl
  · intro p hp
    by_cases hmem : p ∈ posL
    · right
      obtain ⟨⟨j, hjp⟩, hpj⟩ := List.mem_iff_get.mp hmem
      have hjt : j < tk.length := by
        rw [hposL] at hjp
        simpa using hjp
      have hj : j < res.length := by
        rw [hreslen]
        exact hjt
      refine ⟨j, hj, ?_⟩
      have hpeq : (tk.get ⟨j, hjt⟩).2.toNat = p := by
        have h1 : posL.get? j = some ((tk.get ⟨j, hjt⟩).2.toNat) := by
          rw [hposL, List.get?_eq_getElem?, List.getElem?_map, List.getElem?_eq_getElem hjt]
          rfl
        rw [List.get?_eq_get hjp] at h1
        have h2 := Option.some_inj.mp h1
        rw [← h2]
        exact hpj
      rw [hentry j hjt hj, hpeq, List.getD_eq_get?, List.get?_eq_get hp]
      rfl
    · left
      exact hUnt p hmem

/-- C10 at a concrete input: two stored vectors, `k = 2`. -/
theorem c10_mutacao_em_lugar_witness :
    ∃ (mFin resultados : List Meta) (saida : String),
      buscar_faiss encZero "consulta" indexDois metaDois 2 = some (mFin, resultados, saida) ∧
      mFin.length = metaDois.length ∧
      (∀ j (hj : j < resultados.length), ∃ (pos : Nat) (hpos : pos < mFin.length),
        resultados.get ⟨j, hj⟩ = mFin.get ⟨pos, hpos⟩ ∧
        (mFin.get ⟨pos, hpos⟩).rank = some (j + 1) ∧
        ∃ d : ℚ, (mFin.get ⟨pos, hpos⟩).distancia_l2 = some d) ∧
      (∀ p (hp : p < mFin.length),
        mFin.get? p = metaDois.get? p ∨
        ∃ (j : Nat) (hj : j < resultados.length),
          resultados.get ⟨j, hj⟩ = mFin.get ⟨p, hp⟩) :=
  c10_mutacao_em_lugar encZero "consulta" indexDois metaDois 2 (by decide)

end SuperAgent
